import Mathlib

/-!
Energy price calculator: billing engine

A shallow embedding of `main.go` (package `main`) and the properties of its
billing engine: `getPricePerHour`, `convertWattHourToKilowattHour`,
`calculateTotalPrices`, `organizeInputData` and `roundFloat`.

Modelling conventions.

* `float64` is modelled twice. The first embedding reads it as exact rational
  arithmetic (`ℚ`): rounding error, infinities, NaN and the sign of zero are
  outside it, and `math.Signbit x` is therefore `x < 0`. The second embedding
  (`IEEE`) has NaN, the infinities and negative zero and rounds every
  operation on its own (no fused multiply-add), exactly or to binary64.
  Properties that depend on non-finite counters or on rounding (C1, C6, C7,
  C13, C18) are stated on the second.
* Go `int` / `int64` values are `Int`.
* A Go `map[int]V` is a `GoMap V`: a list of key/value entries read by first
  match. A map value built by the program never holds a key twice
  (`GoMap.WF`). `range` over a map visits the entries in an unspecified order;
  the model visits them in the order of an explicit list of entries.
* `time.Time` is reduced to what the program observes: the Unix second and
  the UTC offset in force in the value's location at that instant.
* The library functions `strconv.Atoi`, `strconv.ParseInt`,
  `strconv.ParseFloat` and the process-wide zone `time.Local` are not code of
  this program; they are the fields of `Runtime`.
* A run-time panic (slice bounds, index out of range) is the result `none`.
-/

namespace EnergyPrice

/-! ## Go maps -/

/-- A Go map with `int` keys, as a list of entries. -/
abbrev GoMap (V : Type) := List (Int × V)

namespace GoMap

/-- Comma-ok read `v, ok := m[k]`: the value of the first entry for `k`. -/
def get? {V : Type} : GoMap V → Int → Option V
  | [], _ => none
  | (k', v) :: rest, k => if k' = k then some v else get? rest k

/-- Plain read `m[k]`: the zero value `zero` when the key is absent. -/
def index {V : Type} (m : GoMap V) (k : Int) (zero : V) : V :=
  (m.get? k).getD zero

/-- Assignment `m[k] = v`. -/
def set {V : Type} : GoMap V → Int → V → GoMap V
  | [], k, v => [(k, v)]
  | (k', v') :: rest, k, v =>
    if k' = k then (k', v) :: rest else (k', v') :: set rest k v

/-- Key list of a map, in entry order. -/
def keys {V : Type} (m : GoMap V) : List Int := m.map Prod.fst

/-- Well-formed maps hold each key once. -/
def WF {V : Type} (m : GoMap V) : Prop := (keys m).Nodup

end GoMap

/-! ## Constants and data model -/

def ELECTRICITY_TYPE : Int := 1
def GAS_TYPE : Int := 2

def DEFAULT_ELECTRICITY_PRICE : ℚ := 18 / 100
def WEEKDAY_ELECTRICITY_PRICE : ℚ := 20 / 100
def GAS_PRICE : ℚ := 6 / 10

/-- Value of `time.Time` as observed by the program: an instant (Unix seconds)
and the UTC offset, in seconds east of Greenwich, of its location at that
instant. -/
structure Time where
  unixSec : Int
  offset : Int
deriving DecidableEq, Repr

namespace Time

/-- Seconds of local civil time since 1970-01-01 00:00 local. -/
def localSec (t : Time) : Int := t.unixSec + t.offset

/-- Go `Time.Weekday`, with `Sunday = 0` up to `Saturday = 6`; 1970-01-01 was a
Thursday. -/
def Weekday (t : Time) : Int := (t.localSec / 86400 + 4) % 7

/-- Go `Time.Hour`: the hour within the local day, in `[0, 23]`. -/
def Hour (t : Time) : Int := (t.localSec % 86400) / 3600

/-- Go `Time.Minute`: minute within the local hour (used by examples only). -/
def Minute (t : Time) : Int := (t.localSec % 3600) / 60

end Time

def Sunday : Int := 0
def Monday : Int := 1
def Friday : Int := 5
def Saturday : Int := 6

structure Reading where
  energyType : Int
  usage : ℚ
  createdAt : Time
deriving DecidableEq, Repr

/-! ## Tariff resolver and unit conversion -/

def getPricePerHour (reading : Reading) : ℚ :=
  let pricePerHour := DEFAULT_ELECTRICITY_PRICE
  if reading.energyType = ELECTRICITY_TYPE then
    let isWeekday : Bool :=
      decide (reading.createdAt.Weekday ≠ Sunday) && decide (reading.createdAt.Weekday ≠ Saturday)
    if isWeekday = true ∧ reading.createdAt.Hour > 7 ∧ reading.createdAt.Hour < 23 then
      WEEKDAY_ELECTRICITY_PRICE
    else
      pricePerHour
  else if reading.energyType = GAS_TYPE then
    GAS_PRICE
  else
    pricePerHour

/-- Result pair `(kilowattHour, err)`; `err` is `none` for Go's `nil`. -/
def convertWattHourToKilowattHour (reading : ℚ) (energyType : Int) : ℚ × Option String :=
  let kilowattHour : ℚ := 0
  if energyType = ELECTRICITY_TYPE then
    (reading / 1000, none)
  else if energyType = GAS_TYPE then
    (reading * (9769 / 1000), none)
  else
    (kilowattHour, some "Found a line with unknown energy type!")

/-- Go `math.Signbit` on the rational model: true for negative values. -/
def Signbit (x : ℚ) : Bool := decide (x < 0)

/-! ## Cost accumulator -/

/-- Body of the inner loop of `calculateTotalPrices` for one `index, reading`. -/
def pairStep (readings : GoMap (List Reading)) (meterPointId : Int)
    (totalPrices : GoMap ℚ) (index : Nat) (reading : Reading) : GoMap ℚ :=
  let pricePerHour := getPricePerHour reading
  let kilowattHour := (convertWattHourToKilowattHour reading.usage reading.energyType).1
  let series := readings.index meterPointId []
  if h : index + 1 < series.length then
    let nextReading := series[index + 1]
    let nextKilowattHour :=
      (convertWattHourToKilowattHour nextReading.usage nextReading.energyType).1
    let usage := nextKilowattHour - kilowattHour
    if Signbit usage = true ∨ usage > 100 then
      totalPrices
    else
      totalPrices.set meterPointId (totalPrices.index meterPointId 0 + usage * pricePerHour)
  else
    totalPrices

/-- Inner loop `for index, reading := range rs`, from position `index` on. -/
def rangeSeries (readings : GoMap (List Reading)) (meterPointId : Int) :
    Nat → List Reading → GoMap ℚ → GoMap ℚ
  | _, [], totalPrices => totalPrices
  | index, reading :: rest, totalPrices =>
    rangeSeries readings meterPointId (index + 1) rest
      (pairStep readings meterPointId totalPrices index reading)

/-- Outer loop `for meterPointId, rs := range readings`, the entries being
visited in the order of `order`. -/
def rangeReadings (readings : GoMap (List Reading)) :
    List (Int × List Reading) → GoMap ℚ → GoMap ℚ
  | [], totalPrices => totalPrices
  | (meterPointId, rs) :: rest, totalPrices =>
    rangeReadings readings rest (rangeSeries readings meterPointId 0 rs totalPrices)

def calculateTotalPrices (readings : GoMap (List Reading)) (totalPrices : GoMap ℚ) :
    GoMap ℚ :=
  rangeReadings readings readings totalPrices

/-! ## Output rounding -/

/-- Go `math.Round`: nearest integer, halves away from zero. -/
def mathRound (x : ℚ) : ℚ :=
  if 0 ≤ x then (⌊x + 1 / 2⌋ : Int) else -((⌊-x + 1 / 2⌋ : Int) : ℚ)

def roundFloat (val : ℚ) (precision : Nat) : ℚ :=
  let ratio : ℚ := 10 ^ precision
  mathRound (val * ratio) / ratio

/-! ## Reading organizer -/

/-- Library functions and process state used by `organizeInputData`. Each
parser returns its value together with a flag that is `true` when Go's `err`
is not `nil`; on failure the value is the one the library documents (zero, or
the nearest bound on overflow). -/
structure Runtime where
  /-- Go `strconv.Atoi`. -/
  Atoi : String → Int × Bool
  /-- Go `strconv.ParseInt(s, 10, 64)`. -/
  ParseInt : String → Int × Bool
  /-- Go `strconv.ParseFloat(s, 64)`. -/
  ParseFloat : String → ℚ × Bool
  /-- UTC offset of `time.Local` at a Unix second. -/
  Local : Int → Int

/-- Go `time.Unix(sec, 0)`: the instant, in the local zone. -/
def timeUnix (rt : Runtime) (sec : Int) : Time :=
  { unixSec := sec, offset := rt.Local sec }

/-- Body of the loop of `organizeInputData` for one row `r`; `none` when an
index expression `r[i]` is out of range. -/
def organizeRow (rt : Runtime) (state : GoMap (List Reading) × GoMap ℚ) (r : List String) :
    Option (GoMap (List Reading) × GoMap ℚ) := do
  let readings := state.1
  let totalPrices := state.2
  let timestamp := (rt.ParseInt (← r[3]?)).1
  let createdAt := timeUnix rt timestamp
  let energyType := (rt.Atoi (← r[1]?)).1
  let usage := (rt.ParseFloat (← r[2]?)).1
  let reading : Reading := { energyType := energyType, usage := usage, createdAt := createdAt }
  let meteringPointId := (rt.Atoi (← r[0]?)).1
  let readings :=
    if (readings.get? meteringPointId).isSome then readings else readings.set meteringPointId []
  let readings := readings.set meteringPointId (readings.index meteringPointId [] ++ [reading])
  let totalPrices := totalPrices.set meteringPointId 0
  pure (readings, totalPrices)

/-- Loop `for _, r := range inputData[1:]`. -/
def rangeRows (rt : Runtime) :
    List (List String) → GoMap (List Reading) × GoMap ℚ →
      Option (GoMap (List Reading) × GoMap ℚ)
  | [], state => some state
  | r :: rest, state =>
    match organizeRow rt state r with
    | none => none
    | some state1 => rangeRows rt rest state1

/-- Result `(readings, totalPrices)`; `none` when the slice expression
`inputData[1:]` or an index expression `r[i]` is out of range. -/
def organizeInputData (rt : Runtime) (inputData : List (List String)) :
    Option (GoMap (List Reading) × GoMap ℚ) :=
  match inputData with
  | [] => none
  | _ :: rows => rangeRows rt rows ([], [])

/-! ## A concrete runtime

Used to evaluate the program on concrete rows. -/

/-- Value of a decimal digit. -/
def digitVal (c : Char) : Option Nat :=
  if 48 ≤ c.toNat ∧ c.toNat ≤ 57 then some (c.toNat - 48) else none

/-- Value of a string of decimal digits, `none` when a character is not a digit. -/
def digitsVal : List Char → Nat → Option Nat
  | [], acc => some acc
  | c :: cs, acc =>
    match digitVal c with
    | none => none
    | some d => digitsVal cs (10 * acc + d)

/-- Go `strconv.ParseInt(s, 10, 64)`: an optional sign and decimal digits; a
syntax error gives `0`, a value out of the `int64` range gives the nearest
bound, both with an error. `strconv.Atoi` has the same results on a 64-bit
platform. -/
def parseInt64 (s : String) : Int × Bool :=
  match s.toList with
  | [] => (0, true)
  | c :: cs =>
    let neg : Bool := c = '-'
    let body := if c = '+' ∨ c = '-' then cs else c :: cs
    match body with
    | [] => (0, true)
    | _ :: _ =>
      match digitsVal body 0 with
      | none => (0, true)
      | some un =>
        if neg = false ∧ un ≥ 2 ^ 63 then (2 ^ 63 - 1, true)
        else if neg = true ∧ un > 2 ^ 63 then (-(2 ^ 63), true)
        else (if neg then -(un : Int) else (un : Int), false)

/-- Plain decimal part of Go `strconv.ParseFloat(s, 64)` on the rational model:
an optional sign and decimal digits (no fraction, exponent, hexadecimal,
underscore, infinity or NaN form), read exactly. Any other string is given the
result of a syntax error, `(0, true)`. -/
def parseFloatDecimal (s : String) : ℚ × Bool :=
  match s.toList with
  | [] => (0, true)
  | c :: cs =>
    let neg : Bool := c = '-'
    let body := if c = '+' ∨ c = '-' then cs else c :: cs
    match body with
    | [] => (0, true)
    | _ :: _ =>
      match digitsVal body 0 with
      | none => (0, true)
      | some n => (if neg then -(n : ℚ) else (n : ℚ), false)

/-- Runtime with the decimal parsers above and `time.Local = time.UTC`. -/
def utcRuntime : Runtime :=
  { Atoi := parseInt64, ParseInt := parseInt64, ParseFloat := parseFloatDecimal,
    Local := fun _ => 0 }

/-! ## Reference definitions used in the statements -/

/-- Converted counter of a reading: `convertWattHourToKilowattHour` with its
error discarded. -/
def convert (r : Reading) : ℚ :=
  (convertWattHourToKilowattHour r.usage r.energyType).1

/-- Cost of the adjacent pair `(a, b)`: `delta * price` of the earlier reading
for a delta in `[0, 100]`, zero for an anomalous pair. -/
def pairCost (a b : Reading) : ℚ :=
  if 0 ≤ convert b - convert a ∧ convert b - convert a ≤ 100 then
    (convert b - convert a) * getPricePerHour a
  else 0

/-- Cost `c(i)` of the pair starting at position `i` of a series. -/
def pairCostAt (rs : List Reading) (i : Nat) : ℚ :=
  match rs[i]?, rs[i + 1]? with
  | some a, some b => pairCost a b
  | _, _ => 0

/-- Sum of the pair costs of a series, pair by pair from the front. -/
def seriesCost : List Reading → ℚ
  | a :: b :: rest => pairCost a b + seriesCost (b :: rest)
  | _ => 0

/-- Effect of one series on the entry of its own meter: `t` is the entry
before (`none` when absent), the result the entry after. -/
def seriesFold : List Reading → Option ℚ → Option ℚ
  | a :: b :: rest, t =>
    seriesFold (b :: rest)
      (if Signbit (convert b - convert a) = true ∨ convert b - convert a > 100 then t
       else some (t.getD 0 + (convert b - convert a) * getPricePerHour a))
  | _, t => t

/-- Meter id of a data row as `organizeInputData` reads it. -/
def rowMeter (rt : Runtime) (r : List String) : Int :=
  (rt.Atoi (r.getD 0 "")).1

/-- Reading of a data row as `organizeInputData` builds it. -/
def rowReading (rt : Runtime) (r : List String) : Reading :=
  { energyType := (rt.Atoi (r.getD 1 "")).1,
    usage := (rt.ParseFloat (r.getD 2 "")).1,
    createdAt := timeUnix rt (rt.ParseInt (r.getD 3 "")).1 }

/-- Series of meter `k` read off the data rows: the readings of the rows whose
meter id is `k`, in row order. -/
def seriesOfRows (rt : Runtime) (rows : List (List String)) (k : Int) : List Reading :=
  (rows.filter (fun r => decide (rowMeter rt r = k))).map (rowReading rt)

/-- Update of the series mapping made by `organizeInputData` for one row. -/
def appendReading (readings : GoMap (List Reading)) (m : Int) (reading : Reading) :
    GoMap (List Reading) :=
  let readings1 := if (readings.get? m).isSome then readings else readings.set m []
  readings1.set m (readings1.index m [] ++ [reading])

/-- Totals as they are written out: each entry with its cost rounded to two
decimals, as in the loop of `generateOutputCsv`. -/
def roundedTotals (totalPrices : GoMap ℚ) : List (Int × ℚ) :=
  totalPrices.map (fun e => (e.1, roundFloat e.2 2))

/-! ## Example data

All instants are in UTC. `1416005940` is Friday 2014-11-14 22:59:00,
`1416006060` is 23:01:00 of the same day, `1416045600` is Saturday 2014-11-15
10:00:00, and `1416211200` is Monday 2014-11-17 08:00:00. -/

/-- Electricity reading with counter `usage` watt-hours taken at Unix second `sec`. -/
def electricityAt (usage : ℚ) (sec : Int) : Reading :=
  { energyType := ELECTRICITY_TYPE, usage := usage, createdAt := { unixSec := sec, offset := 0 } }

/-- Four readings one minute apart from Friday 12:00; the third counter falls
back (a counter reset), so the second and third readings form an anomalous pair. -/
def resetSeries : List Reading :=
  [electricityAt 1000 1415966400, electricityAt 2000 1415966460,
   electricityAt 500 1415966520, electricityAt 1500 1415966580]

/-- Friday 22:59 reading of 1000 Wh: weekday tariff in force. -/
def lateReading : Reading := electricityAt 1000 1416005940

/-- Friday 23:01 reading of 2000 Wh: default tariff in force. -/
def nightReading : Reading := electricityAt 2000 1416006060

/-- Header row of the input dataset. -/
def headerRow : List String := ["metering_point_id", "type", "reading", "created_at"]

/-- Row of meter 1: electricity, 1000 Wh, Friday 2014-11-14 11:15 UTC. -/
def rowA1 : List String := ["1", "1", "1000", "1415963700"]

/-- Row of meter 1: electricity, 2000 Wh, Friday 2014-11-14 11:30 UTC. -/
def rowA2 : List String := ["1", "1", "2000", "1415964600"]

/-- Row of meter 2: gas, 3 units, Friday 2014-11-14 11:15 UTC. -/
def rowB1 : List String := ["2", "2", "3", "1415963700"]

/-- Row of meter 2: gas, 5 units, Friday 2014-11-14 11:30 UTC. -/
def rowB2 : List String := ["2", "2", "5", "1415964600"]

/-- Sum of the lengths of all series of a series mapping. -/
def totalLength (readings : GoMap (List Reading)) : Nat :=
  (readings.map (fun e => e.2.length)).sum

/-- Some field of the row fails to parse: one of the four library calls made
for the row returns an error. -/
def rowFails (rt : Runtime) (r : List String) : Bool :=
  (rt.Atoi (r.getD 0 "")).2 || (rt.Atoi (r.getD 1 "")).2 ||
    (rt.ParseFloat (r.getD 2 "")).2 || (rt.ParseInt (r.getD 3 "")).2

/-- Row of meter 1 whose counter field `abc` fails to parse, Friday 2014-11-14
11:20 UTC. -/
def badRow : List String := ["1", "1", "abc", "1415964000"]

/-- Reading of type 3 (unrecognised) with counter `usage`, Friday 12:00 UTC. -/
def unknownAt (usage : ℚ) : Reading :=
  { energyType := 3, usage := usage, createdAt := { unixSec := 1415966400, offset := 0 } }

/-- Three electricity readings one minute apart from Friday 12:00, with
counters 1000, 1500 and 3000 Wh. -/
def steadySeries : List Reading :=
  [electricityAt 1000 1415966400, electricityAt 1500 1415966460,
   electricityAt 3000 1415966520]

/-! ## Second embedding: IEEE-754 values

The definitions above read `float64` as exact rationals. The definitions of
this section embed the same functions of `main.go` over `IEEE.F64`, which adds
the values a `float64` can hold besides finite numbers (NaN, the infinities,
negative zero) and rounds the result of every operation with the rounding of
an `IEEE.Arith`. Two arithmetics are used: `Arith.exact`, which rounds nothing,
and `Arith.binary64`, round-to-nearest-even on 53 bits with the exponent range
of binary64. -/

namespace IEEE

/-- Value of a Go `float64`: a NaN with its sign bit, an infinity with its sign
bit, negative zero, or a finite number (`fin 0` is positive zero). -/
inductive F64 where
  | nan (sign : Bool)
  | inf (sign : Bool)
  | negZero
  | fin (q : ℚ)
deriving DecidableEq, Repr

/-- Arithmetic of the platform: the rounding of an exact result to the format,
the test that a rounded result is beyond the largest finite value, and the sign
bit of the NaN an invalid operation produces (set on amd64, clear on arm64). -/
structure Arith where
  round : ℚ → ℚ
  overflow : ℚ → Bool
  nanSign : Bool

/-- Arithmetic without rounding and without overflow. -/
def Arith.exact : Arith :=
  { round := fun r => r, overflow := fun _ => false, nanSign := false }

/-- Nearest integer, a half going to the even neighbour. -/
def roundHalfEven (t : ℚ) : Int :=
  if t - ⌊t⌋ < 1 / 2 then ⌊t⌋
  else if 1 / 2 < t - ⌊t⌋ then ⌊t⌋ + 1
  else if ⌊t⌋ % 2 = 0 then ⌊t⌋ else ⌊t⌋ + 1

/-- Exponent of the unit in the last place of binary64 at `y ≠ 0`: 52 below the
binade of `y`, and `-1074` in the subnormal range. -/
def ulpExponent (y : ℚ) : Int := max (Int.log 2 |y| - 52) (-1074)

/-- Round to nearest, ties to even, on the binary64 grid with unbounded
exponent above. -/
def roundBinary64 (y : ℚ) : ℚ :=
  if y = 0 then 0
  else (roundHalfEven (y / (2 : ℚ) ^ ulpExponent y) : ℚ) * (2 : ℚ) ^ ulpExponent y

/-- Arithmetic of binary64 with round-to-nearest-even; a rounded result of
magnitude `2 ^ 1024` or more overflows. -/
def Arith.binary64 (nanSign : Bool) : Arith :=
  { round := roundBinary64, overflow := fun y => decide ((2 : ℚ) ^ 1024 ≤ |y|),
    nanSign := nanSign }

namespace F64

/-- Zero with the given sign bit. -/
def signedZero (s : Bool) : F64 := if s then negZero else fin 0

/-- Go `math.Signbit`: the sign bit, set for negative numbers, for negative
zero, and for a NaN or an infinity that carries it. -/
def Signbit : F64 → Bool
  | nan s => s
  | inf s => s
  | negZero => true
  | fin q => decide (q < 0)

/-- The value is a finite number (either zero included). -/
def isFinite : F64 → Bool
  | negZero => true
  | fin _ => true
  | _ => false

/-- Numeric value of a finite value; `0` for the others. -/
def toRat : F64 → ℚ
  | fin q => q
  | _ => 0

/-- Result of an operation whose exact value is `r`: `r` rounded, an infinity on
overflow, and a zero carrying the sign of `r`, or `zeroSign` when `r = 0`. -/
def ofExact (ar : Arith) (zeroSign : Bool) (r : ℚ) : F64 :=
  let s : Bool := if r < 0 then true else if 0 < r then false else zeroSign
  if ar.overflow (ar.round r) = true then inf s
  else if ar.round r = 0 then signedZero s
  else fin (ar.round r)

/-- Value of a Go numeric constant converted to `float64`. -/
def const (ar : Arith) (r : ℚ) : F64 := ofExact ar false r

/-- Negation: the sign bit flipped. -/
def neg : F64 → F64
  | nan s => nan (!s)
  | inf s => inf (!s)
  | negZero => fin 0
  | fin q => if q = 0 then negZero else fin (-q)

/-- Go `x + y`. A NaN operand is returned (the first one if both are); opposite
infinities are an invalid operation. -/
def add (ar : Arith) : F64 → F64 → F64
  | nan s, _ => nan s
  | _, nan s => nan s
  | inf s, inf t => if s = t then inf s else nan ar.nanSign
  | inf s, _ => inf s
  | _, inf t => inf t
  | x, y => ofExact ar (x.Signbit && y.Signbit) (x.toRat + y.toRat)

/-- Go `x - y`. -/
def sub (ar : Arith) : F64 → F64 → F64
  | nan s, _ => nan s
  | _, nan s => nan s
  | x, y => add ar x (neg y)

/-- Go `x * y`. Zero times an infinity is an invalid operation. -/
def mul (ar : Arith) : F64 → F64 → F64
  | nan s, _ => nan s
  | _, nan s => nan s
  | inf s, inf t => inf (xor s t)
  | inf s, y => if y.toRat = 0 then nan ar.nanSign else inf (xor s y.Signbit)
  | x, inf t => if x.toRat = 0 then nan ar.nanSign else inf (xor x.Signbit t)
  | x, y => ofExact ar (xor x.Signbit y.Signbit) (x.toRat * y.toRat)

/-- Go `x / y`. Zero by zero and infinity by infinity are invalid operations; a
non-zero number by zero is an infinity. -/
def div (ar : Arith) : F64 → F64 → F64
  | nan s, _ => nan s
  | _, nan s => nan s
  | inf _, inf _ => nan ar.nanSign
  | inf s, y => inf (xor s y.Signbit)
  | x, inf t => signedZero (xor x.Signbit t)
  | x, y =>
    if y.toRat = 0 then
      if x.toRat = 0 then nan ar.nanSign else inf (xor x.Signbit y.Signbit)
    else ofExact ar (xor x.Signbit y.Signbit) (x.toRat / y.toRat)

/-- Go `x < y`: false when an operand is NaN; the two zeros are equal. -/
def lt : F64 → F64 → Bool
  | nan _, _ => false
  | _, nan _ => false
  | inf s, inf t => s && !t
  | inf s, _ => s
  | _, inf t => !t
  | x, y => decide (x.toRat < y.toRat)

/-- Go `x <= y`: false when an operand is NaN; the two zeros are equal. -/
def le : F64 → F64 → Bool
  | nan _, _ => false
  | _, nan _ => false
  | inf s, inf t => s || !t
  | inf s, _ => s
  | _, inf t => !t
  | x, y => decide (x.toRat ≤ y.toRat)

/-- Go `math.Round`: nearest integer, halves away from zero, the sign kept; NaN,
infinities and zeros are returned unchanged. -/
def Round : F64 → F64
  | fin q => if mathRound q = 0 then signedZero (decide (q < 0)) else fin (mathRound q)
  | x => x

/-- Go `math.Pow(10, float64(n))` for an unsigned `n`: the power of ten as a
`float64` (`n` is `2` in the program, where `100` is exact). -/
def pow10 (ar : Arith) (n : Nat) : F64 := const ar ((10 : ℚ) ^ n)

/-- The value is a NaN. -/
def isNaN : F64 → Bool
  | nan _ => true
  | _ => false

/-- The value is one of the two zeros. -/
def isZero : F64 → Bool
  | negZero => true
  | fin q => decide (q = 0)
  | _ => false

/-- The two values are the same `float64` up to the sign of a zero (a NaN is the
same as itself). -/
def same (x y : F64) : Bool := decide (x = y) || (x.isZero && y.isZero)

/-- The value is a value of binary64: a NaN, an infinity, a zero, or a number of
the binary64 grid of magnitude below `2 ^ 1024`. -/
def isBinary64 : F64 → Bool
  | fin q => decide (roundBinary64 q = q ∧ |q| < (2 : ℚ) ^ 1024)
  | _ => true

end F64

/-! ### The program over `F64` -/

structure Reading where
  energyType : Int
  usage : F64
  createdAt : Time
deriving DecidableEq, Repr

def getPricePerHour (ar : Arith) (reading : Reading) : F64 :=
  let pricePerHour := F64.const ar DEFAULT_ELECTRICITY_PRICE
  if reading.energyType = ELECTRICITY_TYPE then
    let isWeekday : Bool :=
      decide (reading.createdAt.Weekday ≠ Sunday) && decide (reading.createdAt.Weekday ≠ Saturday)
    if isWeekday = true ∧ reading.createdAt.Hour > 7 ∧ reading.createdAt.Hour < 23 then
      F64.const ar WEEKDAY_ELECTRICITY_PRICE
    else
      pricePerHour
  else if reading.energyType = GAS_TYPE then
    F64.const ar GAS_PRICE
  else
    pricePerHour

/-- Result pair `(kilowattHour, err)`; `err` is `none` for Go's `nil`. -/
def convertWattHourToKilowattHour (ar : Arith) (reading : F64) (energyType : Int) :
    F64 × Option String :=
  let kilowattHour : F64 := F64.fin 0
  if energyType = ELECTRICITY_TYPE then
    (F64.div ar reading (F64.const ar 1000), none)
  else if energyType = GAS_TYPE then
    (F64.mul ar reading (F64.const ar (9769 / 1000)), none)
  else
    (kilowattHour, some "Found a line with unknown energy type!")

/-- Body of the inner loop of `calculateTotalPrices` for one `index, reading`. -/
def pairStep (ar : Arith) (readings : GoMap (List Reading)) (meterPointId : Int)
    (totalPrices : GoMap F64) (index : Nat) (reading : Reading) : GoMap F64 :=
  let pricePerHour := getPricePerHour ar reading
  let kilowattHour := (convertWattHourToKilowattHour ar reading.usage reading.energyType).1
  let series := readings.index meterPointId []
  if h : index + 1 < series.length then
    let nextReading := series[index + 1]
    let nextKilowattHour :=
      (convertWattHourToKilowattHour ar nextReading.usage nextReading.energyType).1
    let usage := F64.sub ar nextKilowattHour kilowattHour
    if usage.Signbit = true ∨ F64.lt (F64.const ar 100) usage = true then
      totalPrices
    else
      totalPrices.set meterPointId
        (F64.add ar (totalPrices.index meterPointId (F64.fin 0)) (F64.mul ar usage pricePerHour))
  else
    totalPrices

/-- Inner loop `for index, reading := range rs`, from position `index` on. -/
def rangeSeries (ar : Arith) (readings : GoMap (List Reading)) (meterPointId : Int) :
    Nat → List Reading → GoMap F64 → GoMap F64
  | _, [], totalPrices => totalPrices
  | index, reading :: rest, totalPrices =>
    rangeSeries ar readings meterPointId (index + 1) rest
      (pairStep ar readings meterPointId totalPrices index reading)

/-- Outer loop `for meterPointId, rs := range readings`, the entries being
visited in the order of the given list. -/
def rangeReadings (ar : Arith) (readings : GoMap (List Reading)) :
    List (Int × List Reading) → GoMap F64 → GoMap F64
  | [], totalPrices => totalPrices
  | (meterPointId, rs) :: rest, totalPrices =>
    rangeReadings ar readings rest (rangeSeries ar readings meterPointId 0 rs totalPrices)

def calculateTotalPrices (ar : Arith) (readings : GoMap (List Reading))
    (totalPrices : GoMap F64) : GoMap F64 :=
  rangeReadings ar readings readings totalPrices

def roundFloat (ar : Arith) (val : F64) (precision : Nat) : F64 :=
  let ratio := F64.pow10 ar precision
  F64.div ar (F64.Round (F64.mul ar val ratio)) ratio

/-- Library functions and process state used by `organizeInputData`, the
counter parser returning a `float64` value. -/
structure Runtime where
  /-- Go `strconv.Atoi`. -/
  Atoi : String → Int × Bool
  /-- Go `strconv.ParseInt(s, 10, 64)`. -/
  ParseInt : String → Int × Bool
  /-- Go `strconv.ParseFloat(s, 64)`. -/
  ParseFloat : String → F64 × Bool
  /-- UTC offset of `time.Local` at a Unix second. -/
  Local : Int → Int

/-- Body of the loop of `organizeInputData` for one row `r`; `none` when an
index expression `r[i]` is out of range. -/
def organizeRow (rt : Runtime) (state : GoMap (List Reading) × GoMap F64) (r : List String) :
    Option (GoMap (List Reading) × GoMap F64) := do
  let readings := state.1
  let totalPrices := state.2
  let timestamp := (rt.ParseInt (← r[3]?)).1
  let createdAt : Time := { unixSec := timestamp, offset := rt.Local timestamp }
  let energyType := (rt.Atoi (← r[1]?)).1
  let usage := (rt.ParseFloat (← r[2]?)).1
  let reading : Reading := { energyType := energyType, usage := usage, createdAt := createdAt }
  let meteringPointId := (rt.Atoi (← r[0]?)).1
  let readings :=
    if (readings.get? meteringPointId).isSome then readings else readings.set meteringPointId []
  let readings := readings.set meteringPointId (readings.index meteringPointId [] ++ [reading])
  let totalPrices := totalPrices.set meteringPointId (F64.fin 0)
  pure (readings, totalPrices)

/-- Loop `for _, r := range inputData[1:]`. -/
def rangeRows (rt : Runtime) :
    List (List String) → GoMap (List Reading) × GoMap F64 →
      Option (GoMap (List Reading) × GoMap F64)
  | [], state => some state
  | r :: rest, state =>
    match organizeRow rt state r with
    | none => none
    | some state1 => rangeRows rt rest state1

/-- Result `(readings, totalPrices)`; `none` when the slice expression
`inputData[1:]` or an index expression `r[i]` is out of range. -/
def organizeInputData (rt : Runtime) (inputData : List (List String)) :
    Option (GoMap (List Reading) × GoMap F64) :=
  match inputData with
  | [] => none
  | _ :: rows => rangeRows rt rows ([], [])

/-- Totals as they are written out: each entry with its cost rounded to two
decimals, as in the loop of `generateOutputCsv`. -/
def roundedTotals (ar : Arith) (totalPrices : GoMap F64) : List (Int × F64) :=
  totalPrices.map (fun e => (e.1, roundFloat ar e.2 2))

/-! ### Reference definitions over `F64` -/

/-- Converted counter of a reading, the error discarded. -/
def convert (ar : Arith) (r : Reading) : F64 :=
  (convertWattHourToKilowattHour ar r.usage r.energyType).1

/-- The reading with its counter read as a rational number. -/
def Reading.toExact (r : Reading) : EnergyPrice.Reading :=
  { energyType := r.energyType, usage := r.usage.toRat, createdAt := r.createdAt }

/-- Effect of one series on the entry of its own meter: `t` is the entry
before (`none` when absent), the result the entry after. -/
def seriesFold (ar : Arith) : List Reading → Option F64 → Option F64
  | a :: b :: rest, t =>
    seriesFold ar (b :: rest)
      (if (F64.sub ar (convert ar b) (convert ar a)).Signbit = true ∨
          F64.lt (F64.const ar 100) (F64.sub ar (convert ar b) (convert ar a)) = true then t
       else some (F64.add ar (t.getD (F64.fin 0))
         (F64.mul ar (F64.sub ar (convert ar b) (convert ar a)) (getPricePerHour ar a))))
  | _, t => t

/-- Meter id of a data row as `organizeInputData` reads it. -/
def rowMeter (rt : Runtime) (r : List String) : Int :=
  (rt.Atoi (r.getD 0 "")).1

/-- Reading of a data row as `organizeInputData` builds it. -/
def rowReading (rt : Runtime) (r : List String) : Reading :=
  { energyType := (rt.Atoi (r.getD 1 "")).1,
    usage := (rt.ParseFloat (r.getD 2 "")).1,
    createdAt :=
      { unixSec := (rt.ParseInt (r.getD 3 "")).1,
        offset := rt.Local (rt.ParseInt (r.getD 3 "")).1 } }

/-- Series of meter `k` read off the data rows, in row order. -/
def seriesOfRows (rt : Runtime) (rows : List (List String)) (k : Int) : List Reading :=
  (rows.filter (fun r => decide (rowMeter rt r = k))).map (rowReading rt)

/-- Update of the series mapping made by `organizeInputData` for one row. -/
def appendReading (readings : GoMap (List Reading)) (m : Int) (reading : Reading) :
    GoMap (List Reading) :=
  let readings1 := if (readings.get? m).isSome then readings else readings.set m []
  readings1.set m (readings1.index m [] ++ [reading])

/-! ### A concrete runtime over `F64` -/

/-- Part of Go `strconv.ParseFloat(s, 64)`: the texts `NaN`, `Inf`, `+Inf` and
`-Inf`, and an optional sign followed by decimal digits of a value below
`2 ^ 53` (read exactly, `-0` giving negative zero). Any other string is given
the result of a syntax error, positive zero with an error. -/
def parseFloatText (s : String) : F64 × Bool :=
  if s = "NaN" then (F64.nan false, false)
  else if s = "Inf" ∨ s = "+Inf" then (F64.inf false, false)
  else if s = "-Inf" then (F64.inf true, false)
  else if (parseFloatDecimal s).2 = true then (F64.fin 0, true)
  else if (parseFloatDecimal s).1 = 0 ∧ s.toList.head? = some '-' then (F64.negZero, false)
  else (F64.fin (parseFloatDecimal s).1, false)

/-- Runtime with the decimal parsers, `parseFloatText` and `time.Local = time.UTC`. -/
def utcRuntime : Runtime :=
  { Atoi := parseInt64, ParseInt := parseInt64, ParseFloat := parseFloatText,
    Local := fun _ => 0 }

/-- Row of meter 1: electricity, 1 Wh, Friday 2014-11-14 11:15 UTC. -/
def rowC1 : List String := ["1", "1", "1", "1415963700"]

/-- Row of meter 1: electricity, 1001 Wh, Friday 2014-11-14 11:30 UTC. -/
def rowC2 : List String := ["1", "1", "1001", "1415964600"]

/-- Electricity reading with counter `usage` taken at Unix second `sec` (UTC). -/
def electricityAt (usage : F64) (sec : Int) : Reading :=
  { energyType := ELECTRICITY_TYPE, usage := usage, createdAt := { unixSec := sec, offset := 0 } }

/-- Four readings one minute apart from Friday 12:00 with counters 1000, 2000,
500 and 1500 Wh: the third counter falls back. -/
def resetSeries : List Reading :=
  [electricityAt (F64.fin 1000) 1415966400, electricityAt (F64.fin 2000) 1415966460,
   electricityAt (F64.fin 500) 1415966520, electricityAt (F64.fin 1500) 1415966580]

end IEEE

/-! ## Lemmas on maps -/

namespace GoMap

theorem get?_set {V : Type} (m : GoMap V) (k k' : Int) (v : V) :
    (m.set k v).get? k' = if k = k' then some v else m.get? k' := by
  induction m with
  | nil => simp [set, get?]
  | cons e rest ih =>
    obtain ⟨a, b⟩ := e
    by_cases h : a = k
    · subst h
      by_cases h2 : a = k' <;> simp [set, get?, h2]
    · by_cases h2 : a = k'
      · subst h2
        have h3 : ¬ k = a := fun h3 => h h3.symm
        simp [set, get?, h, h3]
      · simp [set, get?, h, h2, ih]

theorem get?_set_self {V : Type} (m : GoMap V) (k : Int) (v : V) :
    (m.set k v).get? k = some v := by
  simp [get?_set]

theorem get?_set_ne {V : Type} (m : GoMap V) (k k' : Int) (v : V) (h : k ≠ k') :
    (m.set k v).get? k' = m.get? k' := by
  simp [get?_set, h]

theorem get?_eq_none_iff {V : Type} (m : GoMap V) (k : Int) :
    m.get? k = none ↔ k ∉ m.keys := by
  induction m with
  | nil => simp [get?, keys]
  | cons e rest ih =>
    obtain ⟨a, b⟩ := e
    by_cases h : a = k
    · simp [get?, keys, h]
    · have h2 : ¬ k = a := fun h2 => h h2.symm
      simpa [get?, keys, h, h2] using ih

theorem get?_isSome_iff {V : Type} (m : GoMap V) (k : Int) :
    (m.get? k).isSome = true ↔ k ∈ m.keys := by
  rw [← not_iff_not, ← get?_eq_none_iff]
  cases m.get? k <;> simp

theorem get?_of_mem {V : Type} (m : GoMap V) (hm : m.WF) (k : Int) (v : V)
    (h : (k, v) ∈ m) : m.get? k = some v := by
  induction m with
  | nil => simp at h
  | cons e rest ih =>
    obtain ⟨a, b⟩ := e
    have hnd : a ∉ keys rest ∧ (keys rest).Nodup := by
      simpa [WF, keys] using hm
    rcases List.mem_cons.mp h with h1 | h1
    · cases h1
      simp [get?]
    · have hk : k ∈ keys rest := List.mem_map.mpr ⟨(k, v), h1, rfl⟩
      have hne : ¬ a = k := fun e => hnd.1 (e ▸ hk)
      simpa [get?, hne] using ih hnd.2 h1

theorem mem_of_get? {V : Type} (m : GoMap V) (k : Int) (v : V)
    (h : m.get? k = some v) : (k, v) ∈ m := by
  induction m with
  | nil => simp [get?] at h
  | cons e rest ih =>
    obtain ⟨a, b⟩ := e
    by_cases h1 : a = k
    · simp [get?, h1] at h
      simp [h1, h]
    · simp [get?, h1] at h
      exact List.mem_cons_of_mem _ (ih h)

theorem WF_of_perm {V : Type} {m m' : GoMap V} (hp : m.Perm m') (hm : m.WF) : m'.WF := by
  unfold WF keys at *
  exact (hp.map Prod.fst).nodup_iff.mp hm

theorem get?_perm {V : Type} {m m' : GoMap V} (hp : m.Perm m') (hm : m.WF) (k : Int) :
    m'.get? k = m.get? k := by
  cases h : m.get? k with
  | none =>
    rw [get?_eq_none_iff] at h ⊢
    intro hk
    exact h ((hp.map Prod.fst).mem_iff.mpr hk)
  | some v =>
    exact get?_of_mem m' (WF_of_perm hp hm) k v (hp.mem_iff.mp (mem_of_get? m k v h))

theorem keys_set {V : Type} (m : GoMap V) (k : Int) (v : V) :
    (m.set k v).keys = if k ∈ m.keys then m.keys else m.keys ++ [k] := by
  induction m with
  | nil => simp [set, keys]
  | cons e rest ih =>
    obtain ⟨a, b⟩ := e
    by_cases h : a = k
    · simp [set, keys, h]
    · have h2 : ¬ k = a := fun h2 => h h2.symm
      have ih2 : List.map Prod.fst (set rest k v) =
          if k ∈ List.map Prod.fst rest then List.map Prod.fst rest
          else List.map Prod.fst rest ++ [k] := ih
      by_cases h3 : k ∈ List.map Prod.fst rest
      · simp only [set, keys, h, if_false, List.map_cons, ih2, h3, if_true, List.mem_cons,
          or_true]
      · simp only [set, keys, h, if_false, List.map_cons, ih2, h3, List.mem_cons, h2,
          or_self, List.cons_append]

theorem WF_set {V : Type} (m : GoMap V) (k : Int) (v : V) (hm : m.WF) : (m.set k v).WF := by
  unfold WF at *
  rw [keys_set]
  by_cases h : k ∈ m.keys
  · simpa [h] using hm
  · simp only [h, if_false]
    exact List.Nodup.append hm (List.nodup_singleton k) (by simpa using h)

end GoMap

/-! ## Lemmas on the cost accumulator -/

theorem pairStep_last (readings : GoMap (List Reading)) (m : Int) (T : GoMap ℚ) (i : Nat)
    (a : Reading) (h : (readings.index m []).drop i = [a]) :
    pairStep readings m T i a = T := by
  have hlen : (readings.index m []).length - i = 1 := by
    have := congrArg List.length h
    simpa using this
  have hn : ¬ (i + 1 < (readings.index m []).length) := by omega
  simp only [pairStep, hn, dite_false]

theorem pairStep_pair (readings : GoMap (List Reading)) (m : Int) (T : GoMap ℚ) (i : Nat)
    (a b : Reading) (rest : List Reading) (h : (readings.index m []).drop i = a :: b :: rest) :
    pairStep readings m T i a =
      if Signbit (convert b - convert a) = true ∨ convert b - convert a > 100 then T
      else T.set m (T.index m 0 + (convert b - convert a) * getPricePerHour a) := by
  have hlen : (readings.index m []).length - i = rest.length + 2 := by
    have := congrArg List.length h
    simpa using this
  have hlt : i + 1 < (readings.index m []).length := by omega
  have hb : (readings.index m [])[i + 1] = b := by
    have h1 : ((readings.index m []).drop i)[1]? = some b := by rw [h]; simp
    rw [List.getElem?_drop] at h1
    have h2 := List.getElem?_eq_getElem hlt
    rw [h1] at h2
    exact (Option.some.inj h2).symm
  simp only [pairStep, hlt, dite_true, hb, convert]

theorem get?_rangeSeries (readings : GoMap (List Reading)) (m : Int) :
    ∀ (suffix : List Reading) (i : Nat) (T : GoMap ℚ),
      (readings.index m []).drop i = suffix →
      ∀ k : Int, (rangeSeries readings m i suffix T).get? k =
        if k = m then seriesFold suffix (T.get? m) else T.get? k := by
  intro suffix
  induction suffix with
  | nil =>
    intro i T _ k
    by_cases hk : k = m <;> simp [rangeSeries, seriesFold, hk]
  | cons a rest ih =>
    intro i T hdrop k
    have hnext : (readings.index m []).drop (i + 1) = rest := by
      rw [← List.tail_drop, hdrop]; rfl
    rw [rangeSeries, ih (i + 1) _ hnext k]
    cases rest with
    | nil =>
      rw [pairStep_last readings m T i a hdrop]
      simp [seriesFold]
    | cons b rest1 =>
      rw [pairStep_pair readings m T i a b rest1 hdrop]
      by_cases hk : k = m
      · subst hk
        simp only [if_true, seriesFold]
        congr 1
        by_cases hc : Signbit (convert b - convert a) = true ∨ convert b - convert a > 100
        · simp only [hc, if_true]
        · simp only [hc, if_false, GoMap.get?_set_self, GoMap.index]
      · have hk1 : ¬ m = k := fun e => hk e.symm
        simp only [hk, if_false]
        by_cases hc : Signbit (convert b - convert a) = true ∨ convert b - convert a > 100
        · simp only [hc, if_true]
        · simp only [hc, if_false]
          exact GoMap.get?_set_ne T m k _ hk1

theorem get?_rangeReadings (readings : GoMap (List Reading)) :
    ∀ (order : List (Int × List Reading)) (T : GoMap ℚ),
      GoMap.WF order → (∀ e ∈ order, readings.get? e.1 = some e.2) →
      ∀ k : Int, (rangeReadings readings order T).get? k =
        match GoMap.get? order k with
        | some rs => seriesFold rs (T.get? k)
        | none => T.get? k := by
  intro order
  induction order with
  | nil => intro T _ _ k; simp [rangeReadings, GoMap.get?]
  | cons e rest ih =>
    intro T hwf hmem k
    obtain ⟨m, rs⟩ := e
    have hnd : m ∉ GoMap.keys rest ∧ (GoMap.keys rest).Nodup := by
      simpa [GoMap.WF, GoMap.keys] using hwf
    have hidx : readings.index m [] = rs := by
      have := hmem (m, rs) (List.mem_cons_self _ _)
      simp only at this
      simp [GoMap.index, this]
    have hser := get?_rangeSeries readings m rs 0 T (by simp [hidx])
    rw [rangeReadings, ih _ hnd.2 (fun e he => hmem e (List.mem_cons_of_mem _ he)) k]
    by_cases hk : m = k
    · subst hk
      have hnone : GoMap.get? rest m = none := (GoMap.get?_eq_none_iff rest m).mpr hnd.1
      simp [GoMap.get?, hnone, hser]
    · have hk1 : ¬ k = m := fun e => hk e.symm
      simp only [GoMap.get?, hk, if_false, hser, hk1]

/-- Entry of meter `k` after `calculateTotalPrices`: the fold of the series of
`k` over the entry before, or the entry before when `k` has no series. -/
theorem get?_calculateTotalPrices (readings : GoMap (List Reading)) (T : GoMap ℚ)
    (hwf : readings.WF) (k : Int) :
    (calculateTotalPrices readings T).get? k =
      match readings.get? k with
      | some rs => seriesFold rs (T.get? k)
      | none => T.get? k :=
  get?_rangeReadings readings readings T hwf
    (fun e he => GoMap.get?_of_mem readings hwf e.1 e.2 he) k

theorem seriesFold_isSome (rs : List Reading) :
    ∀ t : Option ℚ, t.isSome = true → (seriesFold rs t).isSome = true := by
  induction rs with
  | nil => intro t h; simpa [seriesFold] using h
  | cons a rest ih =>
    intro t h
    cases rest with
    | nil => simpa [seriesFold] using h
    | cons b rest1 =>
      rw [seriesFold]
      apply ih
      split
      · exact h
      · rfl

theorem seriesFold_getD (rs : List Reading) :
    ∀ t : Option ℚ, (seriesFold rs t).getD 0 = t.getD 0 + seriesCost rs := by
  induction rs with
  | nil => intro t; simp [seriesFold, seriesCost]
  | cons a rest ih =>
    intro t
    cases rest with
    | nil => simp [seriesFold, seriesCost]
    | cons b rest1 =>
      rw [seriesFold, ih, seriesCost, pairCost]
      by_cases hneg : convert b - convert a < 0
      · have h1 : ¬ (0 ≤ convert b - convert a ∧ convert b - convert a ≤ 100) :=
          fun h => absurd h.1 (not_le.mpr hneg)
        have h2 : Signbit (convert b - convert a) = true ∨ convert b - convert a > 100 := by
          simp [Signbit, hneg]
        simp only [h2, if_true, h1, if_false, zero_add]
      · by_cases hbig : convert b - convert a > 100
        · have h1 : ¬ (0 ≤ convert b - convert a ∧ convert b - convert a ≤ 100) :=
            fun h => absurd h.2 (not_le.mpr hbig)
          have h2 : Signbit (convert b - convert a) = true ∨ convert b - convert a > 100 :=
            Or.inr hbig
          simp only [h2, if_true, h1, if_false, zero_add]
        · have h1 : 0 ≤ convert b - convert a ∧ convert b - convert a ≤ 100 :=
            ⟨not_lt.mp hneg, not_lt.mp hbig⟩
          have h2 : ¬ (Signbit (convert b - convert a) = true ∨ convert b - convert a > 100) := by
            simp [Signbit, hneg, hbig]
          simp only [h2, if_false, h1, and_self, if_true, Option.getD_some]
          ring

theorem seriesCost_eq_sum (rs : List Reading) :
    seriesCost rs = ∑ i in Finset.range (rs.length - 1), pairCostAt rs i := by
  induction rs with
  | nil => simp [seriesCost]
  | cons a rest ih =>
    cases rest with
    | nil => simp [seriesCost]
    | cons b rest1 =>
      rw [seriesCost, ih]
      have hlen : (a :: b :: rest1).length - 1 = ((b :: rest1).length - 1) + 1 := by simp
      rw [hlen, Finset.sum_range_succ', add_comm]
      have h0 : pairCostAt (a :: b :: rest1) 0 = pairCost a b := by simp [pairCostAt]
      have hs : ∀ k, pairCostAt (a :: b :: rest1) (k + 1) = pairCostAt (b :: rest1) k := by
        intro k; simp [pairCostAt]
      simp only [h0, hs]

/-! ## Lemmas on the reading organizer -/

theorem organizeRow_short (rt : Runtime) (state : GoMap (List Reading) × GoMap ℚ)
    (r : List String) (h : r.length < 4) : organizeRow rt state r = none := by
  have h3 : r[3]? = none := List.getElem?_eq_none (by omega)
  simp [organizeRow, h3]

theorem organizeRow_ok (rt : Runtime) (state : GoMap (List Reading) × GoMap ℚ)
    (r : List String) (h : 4 ≤ r.length) :
    organizeRow rt state r =
      some (appendReading state.1 (rowMeter rt r) (rowReading rt r),
        state.2.set (rowMeter rt r) 0) := by
  match r, h with
  | f0 :: f1 :: f2 :: f3 :: extra, _ =>
    simp [organizeRow, appendReading, rowMeter, rowReading]

theorem get?_appendReading (readings : GoMap (List Reading)) (m : Int) (reading : Reading)
    (k : Int) :
    (appendReading readings m reading).get? k =
      if k = m then some ((readings.get? m).getD [] ++ [reading]) else readings.get? k := by
  unfold appendReading
  by_cases hk : k = m
  · subst hk
    cases hg : readings.get? k with
    | none => simp [hg, GoMap.get?_set, GoMap.index]
    | some v => simp [hg, GoMap.get?_set, GoMap.index]
  · have hk1 : ¬ m = k := fun e => hk e.symm
    cases hg : readings.get? m with
    | none => simp [hg, GoMap.get?_set, hk, hk1]
    | some v => simp [hg, GoMap.get?_set, hk, hk1]

theorem WF_appendReading (readings : GoMap (List Reading)) (m : Int) (reading : Reading)
    (h : readings.WF) : (appendReading readings m reading).WF := by
  unfold appendReading
  apply GoMap.WF_set
  split
  · exact h
  · exact GoMap.WF_set _ _ _ h

theorem seriesOfRows_cons (rt : Runtime) (r : List String) (rows : List (List String))
    (k : Int) :
    seriesOfRows rt (r :: rows) k =
      if rowMeter rt r = k then rowReading rt r :: seriesOfRows rt rows k
      else seriesOfRows rt rows k := by
  by_cases h : rowMeter rt r = k <;> simp [seriesOfRows, List.filter_cons, h]

theorem seriesOfRows_ne_nil_iff (rt : Runtime) (rows : List (List String)) (k : Int) :
    seriesOfRows rt rows k ≠ [] ↔ k ∈ rows.map (rowMeter rt) := by
  induction rows with
  | nil => simp [seriesOfRows]
  | cons r rest ih =>
    rw [seriesOfRows_cons]
    by_cases h : rowMeter rt r = k
    · simp [h]
    · have h1 : ¬ k = rowMeter rt r := fun e => h e.symm
      simp only [h, if_false, List.map_cons, List.mem_cons, h1, false_or]
      exact ih

theorem rangeRows_none (rt : Runtime) :
    ∀ (rows : List (List String)) (state : GoMap (List Reading) × GoMap ℚ),
      (∃ r ∈ rows, r.length < 4) → rangeRows rt rows state = none := by
  intro rows
  induction rows with
  | nil => intro _ h; simp at h
  | cons r rest ih =>
    intro state h
    by_cases hr : r.length < 4
    · simp [rangeRows, organizeRow_short rt state r hr]
    · have hrest : ∃ r1 ∈ rest, r1.length < 4 := by
        obtain ⟨r1, hmem, hlt⟩ := h
        rcases List.mem_cons.mp hmem with e | e
        · exact absurd (e ▸ hlt) hr
        · exact ⟨r1, e, hlt⟩
      rw [rangeRows, organizeRow_ok rt state r (by omega)]
      exact ih _ hrest

theorem rangeRows_some (rt : Runtime) :
    ∀ (rows : List (List String)) (state : GoMap (List Reading) × GoMap ℚ),
      (∀ r ∈ rows, 4 ≤ r.length) →
      ∃ R T, rangeRows rt rows state = some (R, T) ∧
        (∀ k, R.get? k =
          if seriesOfRows rt rows k = [] then state.1.get? k
          else some ((state.1.get? k).getD [] ++ seriesOfRows rt rows k)) ∧
        (∀ k, T.get? k = if seriesOfRows rt rows k = [] then state.2.get? k else some 0) ∧
        (state.1.WF → R.WF) ∧ (state.2.WF → T.WF) := by
  intro rows
  induction rows with
  | nil =>
    intro state _
    exact ⟨state.1, state.2, rfl, by simp [seriesOfRows], by simp [seriesOfRows],
      fun h => h, fun h => h⟩
  | cons r rest ih =>
    intro state h
    have hr : 4 ≤ r.length := h r (List.mem_cons_self _ _)
    obtain ⟨R, T, hrun, hR, hT, hwR, hwT⟩ :=
      ih (appendReading state.1 (rowMeter rt r) (rowReading rt r),
          state.2.set (rowMeter rt r) 0)
        (fun r1 h1 => h r1 (List.mem_cons_of_mem _ h1))
    refine ⟨R, T, ?_, ?_, ?_, ?_, ?_⟩
    · rw [rangeRows, organizeRow_ok rt state r hr]
      exact hrun
    · intro k
      rw [hR k, seriesOfRows_cons]
      simp only [get?_appendReading]
      by_cases hk : rowMeter rt r = k
      · subst hk
        by_cases hn : seriesOfRows rt rest (rowMeter rt r) = [] <;> simp [hn]
      · have hk1 : ¬ k = rowMeter rt r := fun e => hk e.symm
        simp only [hk, hk1, if_false]
    · intro k
      rw [hT k, seriesOfRows_cons]
      simp only [GoMap.get?_set]
      by_cases hk : rowMeter rt r = k
      · by_cases hn : seriesOfRows rt rest k = [] <;> simp [hn, hk]
      · simp only [hk, if_false]
    · intro hw
      exact hwR (WF_appendReading _ _ _ hw)
    · intro hw
      exact hwT (GoMap.WF_set _ _ _ hw)

/-- Result of `organizeInputData` on a header row followed by rows of at least
four fields each. -/
theorem organizeInputData_some (rt : Runtime) (header : List String)
    (rows : List (List String)) (h : ∀ r ∈ rows, 4 ≤ r.length) :
    ∃ R T, organizeInputData rt (header :: rows) = some (R, T) ∧
      (∀ k, R.get? k =
        if seriesOfRows rt rows k = [] then none else some (seriesOfRows rt rows k)) ∧
      (∀ k, T.get? k = if seriesOfRows rt rows k = [] then none else some 0) ∧
      R.WF ∧ T.WF := by
  obtain ⟨R, T, hrun, hR, hT, hwR, hwT⟩ := rangeRows_some rt rows ([], []) h
  refine ⟨R, T, hrun, ?_, ?_, hwR (by simp [GoMap.WF, GoMap.keys]),
    hwT (by simp [GoMap.WF, GoMap.keys])⟩
  · intro k
    rw [hR k]
    simp [GoMap.get?]
  · intro k
    rw [hT k]
    simp [GoMap.get?]

theorem organizeInputData_none (rt : Runtime) (header : List String)
    (rows : List (List String)) (h : ∃ r ∈ rows, r.length < 4) :
    organizeInputData rt (header :: rows) = none :=
  rangeRows_none rt rows ([], []) h

/-! ## Lemmas on prices and pair costs -/

theorem getPricePerHour_cases (r : Reading) :
    getPricePerHour r = 18 / 100 ∨ getPricePerHour r = 20 / 100 ∨ getPricePerHour r = 6 / 10 := by
  unfold getPricePerHour DEFAULT_ELECTRICITY_PRICE WEEKDAY_ELECTRICITY_PRICE GAS_PRICE
  simp only
  split
  · split
    · exact Or.inr (Or.inl rfl)
    · exact Or.inl rfl
  · split
    · exact Or.inr (Or.inr rfl)
    · exact Or.inl rfl

theorem getPricePerHour_pos (r : Reading) : 0 < getPricePerHour r := by
  rcases getPricePerHour_cases r with h | h | h <;> rw [h] <;> norm_num

theorem pairCost_nonneg (a b : Reading) : 0 ≤ pairCost a b := by
  unfold pairCost
  split
  · rename_i h
    exact mul_nonneg h.1 (le_of_lt (getPricePerHour_pos a))
  · exact le_refl 0

theorem seriesCost_nonneg (rs : List Reading) : 0 ≤ seriesCost rs := by
  induction rs with
  | nil => simp [seriesCost]
  | cons a rest ih =>
    cases rest with
    | nil => simp [seriesCost]
    | cons b rest1 =>
      rw [seriesCost]
      exact add_nonneg (pairCost_nonneg a b) ih

theorem weekday_range (t : Time) : 0 ≤ t.Weekday ∧ t.Weekday ≤ 6 := by
  unfold Time.Weekday
  omega

theorem pairStep_next (readings : GoMap (List Reading)) (m : Int) (T : GoMap ℚ) (i : Nat)
    (a b : Reading) (h : (readings.index m [])[i + 1]? = some b) :
    pairStep readings m T i a =
      if Signbit (convert b - convert a) = true ∨ convert b - convert a > 100 then T
      else T.set m (T.index m 0 + (convert b - convert a) * getPricePerHour a) := by
  have hlt : i + 1 < (readings.index m []).length := by
    by_contra hge
    rw [List.getElem?_eq_none (by omega)] at h
    exact Option.noConfusion h
  have hb : (readings.index m [])[i + 1] = b := by
    have h2 := List.getElem?_eq_getElem hlt
    rw [h] at h2
    exact (Option.some.inj h2).symm
  simp only [pairStep, hlt, dite_true, hb, convert]

/-- Total of meter `k` (Go read) after `calculateTotalPrices`, for a meter with
series `rs`. -/
theorem index_calculateTotalPrices (readings : GoMap (List Reading)) (T : GoMap ℚ)
    (hwf : readings.WF) (k : Int) (rs : List Reading) (hrs : readings.get? k = some rs) :
    (calculateTotalPrices readings T).index k 0 = T.index k 0 + seriesCost rs := by
  unfold GoMap.index
  rw [get?_calculateTotalPrices readings T hwf k, hrs]
  exact seriesFold_getD rs (T.get? k)

/-! ## Tariff resolver (C2, C3) -/

/-- C2: for every electricity reading, `getPricePerHour` is `0.20` when the
weekday is Monday to Friday and the hour `h` satisfies `8 ≤ h ≤ 22`, and `0.18`
otherwise; so it is `0.20` exactly in that window. Saturday 10:00 gives `0.18`,
Monday 08:00 gives `0.20`, Monday 07:00 gives `0.18`, Monday 23:00 gives `0.18`. -/
theorem getPricePerHour_electricity (usage : ℚ) (t : Time) :
    (getPricePerHour { energyType := 1, usage := usage, createdAt := t } =
      if (Monday ≤ t.Weekday ∧ t.Weekday ≤ Friday) ∧ 8 ≤ t.Hour ∧ t.Hour ≤ 22
      then 20 / 100 else 18 / 100) ∧
    (getPricePerHour { energyType := 1, usage := usage, createdAt := t } = 20 / 100 ↔
      (Monday ≤ t.Weekday ∧ t.Weekday ≤ Friday) ∧ 8 ≤ t.Hour ∧ t.Hour ≤ 22) ∧
    ((Time.mk 1416045600 0).Weekday = Saturday ∧ (Time.mk 1416045600 0).Hour = 10 ∧
      getPricePerHour { energyType := 1, usage := usage, createdAt := Time.mk 1416045600 0 }
        = 18 / 100) ∧
    ((Time.mk 1416211200 0).Weekday = Monday ∧ (Time.mk 1416211200 0).Hour = 8 ∧
      getPricePerHour { energyType := 1, usage := usage, createdAt := Time.mk 1416211200 0 }
        = 20 / 100) ∧
    ((Time.mk 1416207600 0).Weekday = Monday ∧ (Time.mk 1416207600 0).Hour = 7 ∧
      getPricePerHour { energyType := 1, usage := usage, createdAt := Time.mk 1416207600 0 }
        = 18 / 100) ∧
    ((Time.mk 1416265200 0).Weekday = Monday ∧ (Time.mk 1416265200 0).Hour = 23 ∧
      getPricePerHour { energyType := 1, usage := usage, createdAt := Time.mk 1416265200 0 }
        = 18 / 100) := by
  have key : ∀ t1 : Time,
      getPricePerHour { energyType := 1, usage := usage, createdAt := t1 } =
        if (Monday ≤ t1.Weekday ∧ t1.Weekday ≤ Friday) ∧ 8 ≤ t1.Hour ∧ t1.Hour ≤ 22
        then 20 / 100 else 18 / 100 := by
    intro t1
    have hr := weekday_range t1
    unfold getPricePerHour
    simp only [ELECTRICITY_TYPE, if_true, Sunday, Saturday, Monday, Friday,
      WEEKDAY_ELECTRICITY_PRICE, DEFAULT_ELECTRICITY_PRICE, Bool.and_eq_true,
      decide_eq_true_eq, gt_iff_lt]
    by_cases hc : (¬ t1.Weekday = 0 ∧ ¬ t1.Weekday = 6) ∧ 7 < t1.Hour ∧ t1.Hour < 23
    · have hc2 : (1 ≤ t1.Weekday ∧ t1.Weekday ≤ 5) ∧ 8 ≤ t1.Hour ∧ t1.Hour ≤ 22 := by omega
      rw [if_pos hc, if_pos hc2]
    · have hc2 : ¬ ((1 ≤ t1.Weekday ∧ t1.Weekday ≤ 5) ∧ 8 ≤ t1.Hour ∧ t1.Hour ≤ 22) := by omega
      rw [if_neg hc, if_neg hc2]
  refine ⟨key t, ?_, ?_, ?_, ?_, ?_⟩
  · rw [key t]
    by_cases hc : (Monday ≤ t.Weekday ∧ t.Weekday ≤ Friday) ∧ 8 ≤ t.Hour ∧ t.Hour ≤ 22
    · simp [hc]
    · simp only [hc, if_false, iff_false]
      norm_num
  · refine ⟨by decide, by decide, ?_⟩
    rw [key]
    have h : ¬ ((Monday ≤ (Time.mk 1416045600 0).Weekday ∧
        (Time.mk 1416045600 0).Weekday ≤ Friday) ∧
        8 ≤ (Time.mk 1416045600 0).Hour ∧ (Time.mk 1416045600 0).Hour ≤ 22) := by decide
    rw [if_neg h]
  · refine ⟨by decide, by decide, ?_⟩
    rw [key]
    have h : (Monday ≤ (Time.mk 1416211200 0).Weekday ∧
        (Time.mk 1416211200 0).Weekday ≤ Friday) ∧
        8 ≤ (Time.mk 1416211200 0).Hour ∧ (Time.mk 1416211200 0).Hour ≤ 22 := by decide
    rw [if_pos h]
  · refine ⟨by decide, by decide, ?_⟩
    rw [key]
    have h : ¬ ((Monday ≤ (Time.mk 1416207600 0).Weekday ∧
        (Time.mk 1416207600 0).Weekday ≤ Friday) ∧
        8 ≤ (Time.mk 1416207600 0).Hour ∧ (Time.mk 1416207600 0).Hour ≤ 22) := by decide
    rw [if_neg h]
  · refine ⟨by decide, by decide, ?_⟩
    rw [key]
    have h : ¬ ((Monday ≤ (Time.mk 1416265200 0).Weekday ∧
        (Time.mk 1416265200 0).Weekday ≤ Friday) ∧
        8 ≤ (Time.mk 1416265200 0).Hour ∧ (Time.mk 1416265200 0).Hour ≤ 22) := by decide
    rw [if_neg h]

/-- C3: for every gas reading, whatever its timestamp and its usage counter,
`getPricePerHour` is the gas price constant `0.6`. -/
theorem getPricePerHour_gas (usage : ℚ) (t : Time) :
    getPricePerHour { energyType := 2, usage := usage, createdAt := t } = GAS_PRICE ∧
    GAS_PRICE = 6 / 10 := by
  constructor
  · simp [getPricePerHour, ELECTRICITY_TYPE, GAS_TYPE]
  · rfl

/-! ## Anomaly boundary and pricing of a pair (C4, C5) -/

/-- C4: for a series of exactly two readings `(a, b)` of one meter whose
initial total is `0`, with `delta = convert b - convert a`: a delta of exactly
`100` gives the total `100 * getPricePerHour a`, which is positive; a delta
above `100` gives `0`; a negative delta, of any magnitude, gives `0`. -/
theorem anomaly_boundary (readings : GoMap (List Reading)) (totalPrices : GoMap ℚ) (m : Int)
    (a b : Reading) (hwf : readings.WF) (hrs : readings.get? m = some [a, b])
    (h0 : totalPrices.index m 0 = 0) :
    (convert b - convert a = 100 →
      (calculateTotalPrices readings totalPrices).index m 0 = 100 * getPricePerHour a ∧
      0 < 100 * getPricePerHour a) ∧
    (convert b - convert a > 100 →
      (calculateTotalPrices readings totalPrices).index m 0 = 0) ∧
    (convert b - convert a < 0 →
      (calculateTotalPrices readings totalPrices).index m 0 = 0) := by
  have key := index_calculateTotalPrices readings totalPrices hwf m [a, b] hrs
  have hcost : seriesCost [a, b] = pairCost a b := by simp [seriesCost]
  rw [h0, hcost, pairCost, zero_add] at key
  refine ⟨?_, ?_, ?_⟩
  · intro hd
    have hy : 0 ≤ convert b - convert a ∧ convert b - convert a ≤ 100 := by
      rw [hd]; norm_num
    rw [key, if_pos hy, hd]
    exact ⟨rfl, mul_pos (by norm_num) (getPricePerHour_pos a)⟩
  · intro hd
    have hn : ¬ (0 ≤ convert b - convert a ∧ convert b - convert a ≤ 100) :=
      fun h => absurd h.2 (not_le.mpr hd)
    rw [key, if_neg hn]
  · intro hd
    have hn : ¬ (0 ≤ convert b - convert a ∧ convert b - convert a ≤ 100) :=
      fun h => absurd h.1 (not_le.mpr hd)
    rw [key, if_neg hn]

/-- C4 at concrete pairs of Friday-noon electricity readings: counters `0` and
`100000` Wh (delta exactly `100`) cost `100 * 0.20 = 20`; counters `0` and
`100000.1` Wh (delta `100.0001`) cost `0`; counters `5000` and `0` Wh (negative
delta) cost `0`. -/
theorem anomaly_boundary_witness :
    GoMap.WF [((1 : Int), [electricityAt 0 1415966400, electricityAt 100000 1415966460])] ∧
    GoMap.index [((1 : Int), (0 : ℚ))] 1 0 = 0 ∧
    (calculateTotalPrices
        [(1, [electricityAt 0 1415966400, electricityAt 100000 1415966460])] [(1, 0)]).index 1 0
      = 100 * getPricePerHour (electricityAt 0 1415966400) ∧
    getPricePerHour (electricityAt 0 1415966400) = 20 / 100 ∧
    (calculateTotalPrices
        [(1, [electricityAt 0 1415966400, electricityAt (1000001 / 10) 1415966460])]
        [(1, 0)]).index 1 0 = 0 ∧
    (calculateTotalPrices
        [(1, [electricityAt 5000 1415966400, electricityAt 0 1415966460])] [(1, 0)]).index 1 0
      = 0 :=
  ⟨by simp [GoMap.WF, GoMap.keys], by simp [GoMap.index, GoMap.get?],
    ((anomaly_boundary [(1, [electricityAt 0 1415966400, electricityAt 100000 1415966460])]
      [(1, 0)] 1 (electricityAt 0 1415966400) (electricityAt 100000 1415966460)
      (by simp [GoMap.WF, GoMap.keys]) (by simp [GoMap.get?])
      (by simp [GoMap.index, GoMap.get?])).1
      (by norm_num [convert, convertWattHourToKilowattHour, electricityAt])).1,
    by norm_num [getPricePerHour, electricityAt, ELECTRICITY_TYPE, Time.Weekday, Time.Hour,
      Time.localSec, Sunday, Saturday, WEEKDAY_ELECTRICITY_PRICE],
    (anomaly_boundary
      [(1, [electricityAt 0 1415966400, electricityAt (1000001 / 10) 1415966460])]
      [(1, 0)] 1 (electricityAt 0 1415966400) (electricityAt (1000001 / 10) 1415966460)
      (by simp [GoMap.WF, GoMap.keys]) (by simp [GoMap.get?])
      (by simp [GoMap.index, GoMap.get?])).2.1
      (by norm_num [convert, convertWattHourToKilowattHour, electricityAt]),
    (anomaly_boundary [(1, [electricityAt 5000 1415966400, electricityAt 0 1415966460])]
      [(1, 0)] 1 (electricityAt 5000 1415966400) (electricityAt 0 1415966460)
      (by simp [GoMap.WF, GoMap.keys]) (by simp [GoMap.get?])
      (by simp [GoMap.index, GoMap.get?])).2.2
      (by norm_num [convert, convertWattHourToKilowattHour, electricityAt])⟩

theorem pairCostAt_pair (rs : List Reading) (i : Nat) (a b : Reading)
    (ha : rs[i]? = some a) (hb : rs[i + 1]? = some b) : pairCostAt rs i = pairCost a b := by
  simp [pairCostAt, ha, hb]

/-- Total of meter `m` after `calculateTotalPrices`, with the term of the pair at
position `i` of its series set apart from the terms of the other pairs. -/
theorem index_calculateTotalPrices_pair (readings : GoMap (List Reading)) (T : GoMap ℚ)
    (m : Int) (rs : List Reading) (i : Nat) (a b : Reading) (hwf : readings.WF)
    (hrs : readings.get? m = some rs) (ha : rs[i]? = some a) (hb : rs[i + 1]? = some b) :
    (calculateTotalPrices readings T).index m 0 =
      T.index m 0 + ∑ j in (Finset.range (rs.length - 1)).erase i, pairCostAt rs j +
        pairCost a b := by
  have hlt : i + 1 < rs.length := by
    by_contra hge
    rw [List.getElem?_eq_none (by omega)] at hb
    exact Option.noConfusion hb
  have hmem : i ∈ Finset.range (rs.length - 1) := by
    rw [Finset.mem_range]
    omega
  rw [index_calculateTotalPrices readings T hwf m rs hrs, seriesCost_eq_sum,
    ← Finset.add_sum_erase _ _ hmem, pairCostAt_pair rs i a b ha hb]
  ring

/-- C5: for every adjacent pair `(a, b) = (rs[i], rs[i+1])` of the series of a
meter `m` with a valid delta, the total `calculateTotalPrices` returns for `m`
is the initial total, plus the costs of the other pairs, plus
`delta * getPricePerHour a` for this pair. The later reading enters the term of
the pair only through its converted counter: with any other reading of the same
converted counter in its place, whatever its timestamp and energy type, the
term of the pair is the same. An electricity pair whose earlier reading is on a
weekday at hour 22 (22:59, say) is priced at `0.20`, wherever the later reading
falls. -/
theorem pair_priced_by_earlier_reading (readings : GoMap (List Reading))
    (totalPrices : GoMap ℚ) (m : Int) (rs : List Reading) (i : Nat) (a b : Reading)
    (hwf : readings.WF) (hrs : readings.get? m = some rs)
    (ha : rs[i]? = some a) (hb : rs[i + 1]? = some b)
    (hvalid : 0 ≤ convert b - convert a ∧ convert b - convert a ≤ 100) :
    (calculateTotalPrices readings totalPrices).index m 0 =
      totalPrices.index m 0 + ∑ j in (Finset.range (rs.length - 1)).erase i, pairCostAt rs j +
        (convert b - convert a) * getPricePerHour a ∧
    (∀ (readings1 : GoMap (List Reading)) (b1 : Reading), readings1.WF →
      readings1.get? m = some (rs.set (i + 1) b1) → convert b1 = convert b →
      (calculateTotalPrices readings1 totalPrices).index m 0 =
        totalPrices.index m 0 +
          ∑ j in (Finset.range (rs.length - 1)).erase i, pairCostAt (rs.set (i + 1) b1) j +
          (convert b - convert a) * getPricePerHour a) ∧
    (a.energyType = ELECTRICITY_TYPE →
      Monday ≤ a.createdAt.Weekday ∧ a.createdAt.Weekday ≤ Friday →
      a.createdAt.Hour = 22 →
      (calculateTotalPrices readings totalPrices).index m 0 =
        totalPrices.index m 0 +
          ∑ j in (Finset.range (rs.length - 1)).erase i, pairCostAt rs j +
          (convert b - convert a) * (20 / 100)) := by
  have hcost : pairCost a b = (convert b - convert a) * getPricePerHour a := by
    rw [pairCost, if_pos hvalid]
  have hmain := index_calculateTotalPrices_pair readings totalPrices m rs i a b hwf hrs ha hb
  rw [hcost] at hmain
  refine ⟨hmain, ?_, ?_⟩
  · intro readings1 b1 hwf1 hrs1 hconv
    have hlt : i + 1 < rs.length := by
      by_contra hge
      rw [List.getElem?_eq_none (by omega)] at hb
      exact Option.noConfusion hb
    have ha1 : (rs.set (i + 1) b1)[i]? = some a := by
      rw [List.getElem?_set_ne (by omega)]
      exact ha
    have hb1 : (rs.set (i + 1) b1)[i + 1]? = some b1 := by
      rw [List.getElem?_set_self hlt]
    have hcost1 : pairCost a b1 = (convert b - convert a) * getPricePerHour a := by
      rw [pairCost, hconv, if_pos hvalid]
    have h := index_calculateTotalPrices_pair readings1 totalPrices m (rs.set (i + 1) b1) i a b1
      hwf1 hrs1 ha1 hb1
    rw [hcost1, List.length_set] at h
    exact h
  · intro he hw hh
    have hp : getPricePerHour a = 20 / 100 := by
      unfold getPricePerHour
      simp only [he, if_true, Sunday, Saturday, Monday, Friday, WEEKDAY_ELECTRICITY_PRICE,
        Bool.and_eq_true, decide_eq_true_eq, gt_iff_lt] at hw ⊢
      have hc : (¬ a.createdAt.Weekday = 0 ∧ ¬ a.createdAt.Weekday = 6) ∧
          7 < a.createdAt.Hour ∧ a.createdAt.Hour < 23 := by omega
      rw [if_pos hc]
    rw [← hp]
    exact hmain

/-- C5 at the series Friday 22:59 (1000 Wh), Friday 23:01 (2000 Wh): the later
reading alone would resolve to `0.18`, the series has no other pair, and
`calculateTotalPrices` bills the pair `1 * 0.20`. -/
theorem pair_priced_by_earlier_reading_witness :
    GoMap.WF [((1 : Int), [lateReading, nightReading])] ∧
    GoMap.get? [((1 : Int), [lateReading, nightReading])] 1 = some [lateReading, nightReading] ∧
    [lateReading, nightReading][0]? = some lateReading ∧
    [lateReading, nightReading][0 + 1]? = some nightReading ∧
    (0 ≤ convert nightReading - convert lateReading ∧
      convert nightReading - convert lateReading ≤ 100) ∧
    (lateReading.createdAt.Hour = 22 ∧ lateReading.createdAt.Minute = 59 ∧
      nightReading.createdAt.Hour = 23 ∧ nightReading.createdAt.Minute = 1 ∧
      getPricePerHour nightReading = 18 / 100) ∧
    (calculateTotalPrices [(1, [lateReading, nightReading])] [(1, 0)]).index 1 0 =
      GoMap.index [((1 : Int), (0 : ℚ))] 1 0 +
        ∑ j in (Finset.range ([lateReading, nightReading].length - 1)).erase 0,
          pairCostAt [lateReading, nightReading] j +
        (convert nightReading - convert lateReading) * (20 / 100) ∧
    (calculateTotalPrices [(1, [lateReading, nightReading])] [(1, 0)]).index 1 0 = 1 / 5 :=
  ⟨by simp [GoMap.WF, GoMap.keys], by simp [GoMap.get?], by simp, by simp,
    by norm_num [convert, convertWattHourToKilowattHour, lateReading, nightReading,
      electricityAt],
    ⟨by decide, by decide, by decide, by decide,
      by norm_num [getPricePerHour, nightReading, electricityAt, ELECTRICITY_TYPE,
        Time.Weekday, Time.Hour, Time.localSec, Sunday, Saturday, DEFAULT_ELECTRICITY_PRICE]⟩,
    (pair_priced_by_earlier_reading [(1, [lateReading, nightReading])] [(1, 0)] 1
      [lateReading, nightReading] 0 lateReading nightReading
      (by simp [GoMap.WF, GoMap.keys]) (by simp [GoMap.get?]) (by simp) (by simp)
      (by norm_num [convert, convertWattHourToKilowattHour, lateReading, nightReading,
        electricityAt])).2.2 rfl (by decide) (by decide),
    by norm_num [calculateTotalPrices, rangeReadings, rangeSeries, pairStep, lateReading,
      nightReading, electricityAt, GoMap.index, GoMap.get?, GoMap.set,
      convertWattHourToKilowattHour, getPricePerHour, Signbit, ELECTRICITY_TYPE, Time.Weekday,
      Time.Hour, Time.localSec, Sunday, Saturday, WEEKDAY_ELECTRICITY_PRICE]⟩

/-! ## Order-insensitivity across meters (C8) -/

/-- C8: for two inputs with the same header whose data rows are permutations
of each other and in which every meter has the same subsequence of rows,
`organizeInputData` followed by `calculateTotalPrices` gives the same outcome:
the same totals mapping (equal at every meter id), or a failure in both. When
every row has four fields both runs return, with identical totals. -/
theorem totals_order_insensitive (rt : Runtime) (header : List String)
    (rows1 rows2 : List (List String)) (hperm : rows1.Perm rows2)
    (hsame : ∀ m : Int, rows1.filter (fun r => decide (rowMeter rt r = m)) =
      rows2.filter (fun r => decide (rowMeter rt r = m))) :
    ((organizeInputData rt (header :: rows1)).map
        (fun s => GoMap.get? (calculateTotalPrices s.1 s.2)) =
      (organizeInputData rt (header :: rows2)).map
        (fun s => GoMap.get? (calculateTotalPrices s.1 s.2))) ∧
    ((∀ r ∈ rows1, 4 ≤ r.length) →
      ∃ R1 T1 R2 T2, organizeInputData rt (header :: rows1) = some (R1, T1) ∧
        organizeInputData rt (header :: rows2) = some (R2, T2) ∧
        ∀ k, (calculateTotalPrices R1 T1).get? k = (calculateTotalPrices R2 T2).get? k) := by
  have hser : ∀ k, seriesOfRows rt rows1 k = seriesOfRows rt rows2 k := by
    intro k
    unfold seriesOfRows
    rw [hsame k]
  have hgood : (∀ r ∈ rows1, 4 ≤ r.length) →
      ∃ R1 T1 R2 T2, organizeInputData rt (header :: rows1) = some (R1, T1) ∧
        organizeInputData rt (header :: rows2) = some (R2, T2) ∧
        ∀ k, (calculateTotalPrices R1 T1).get? k = (calculateTotalPrices R2 T2).get? k := by
    intro hall
    have hall2 : ∀ r ∈ rows2, 4 ≤ r.length := fun r hr => hall r (hperm.mem_iff.mpr hr)
    obtain ⟨R1, T1, ho1, hR1, hT1, hw1, _⟩ := organizeInputData_some rt header rows1 hall
    obtain ⟨R2, T2, ho2, hR2, hT2, hw2, _⟩ := organizeInputData_some rt header rows2 hall2
    refine ⟨R1, T1, R2, T2, ho1, ho2, ?_⟩
    intro k
    rw [get?_calculateTotalPrices R1 T1 hw1 k, get?_calculateTotalPrices R2 T2 hw2 k,
      hR1 k, hR2 k, hT1 k, hT2 k, hser k]
  refine ⟨?_, hgood⟩
  by_cases hall : ∀ r ∈ rows1, 4 ≤ r.length
  · obtain ⟨R1, T1, R2, T2, ho1, ho2, heq⟩ := hgood hall
    rw [ho1, ho2]
    simp only [Option.map_some']
    congr 1
    funext k
    exact heq k
  · have hbad1 : ∃ r ∈ rows1, r.length < 4 := by
      push_neg at hall
      exact hall
    have hbad2 : ∃ r ∈ rows2, r.length < 4 := by
      obtain ⟨r, hr, hlt⟩ := hbad1
      exact ⟨r, hperm.mem_iff.mp hr, hlt⟩
    rw [organizeInputData_none rt header rows1 hbad1,
      organizeInputData_none rt header rows2 hbad2]

/-- C8 at the rows of meters 1 and 2, interleaved in two ways. -/
theorem totals_order_insensitive_witness :
    [rowA1, rowB1, rowA2, rowB2].Perm [rowA1, rowA2, rowB1, rowB2] ∧
    (∀ m : Int, [rowA1, rowB1, rowA2, rowB2].filter
        (fun r => decide (rowMeter utcRuntime r = m)) =
      [rowA1, rowA2, rowB1, rowB2].filter (fun r => decide (rowMeter utcRuntime r = m))) ∧
    ∃ R1 T1 R2 T2,
      organizeInputData utcRuntime (headerRow :: [rowA1, rowB1, rowA2, rowB2]) =
        some (R1, T1) ∧
      organizeInputData utcRuntime (headerRow :: [rowA1, rowA2, rowB1, rowB2]) =
        some (R2, T2) ∧
      ∀ k, (calculateTotalPrices R1 T1).get? k = (calculateTotalPrices R2 T2).get? k :=
  have hA1 : rowMeter utcRuntime rowA1 = 1 := by decide
  have hA2 : rowMeter utcRuntime rowA2 = 1 := by decide
  have hB1 : rowMeter utcRuntime rowB1 = 2 := by decide
  have hB2 : rowMeter utcRuntime rowB2 = 2 := by decide
  have hsame : ∀ m : Int, [rowA1, rowB1, rowA2, rowB2].filter
        (fun r => decide (rowMeter utcRuntime r = m)) =
      [rowA1, rowA2, rowB1, rowB2].filter (fun r => decide (rowMeter utcRuntime r = m)) := by
    intro m
    simp only [List.filter_cons, List.filter_nil, hA1, hA2, hB1, hB2]
    by_cases h1 : (1 : Int) = m
    · have h2 : ¬ (2 : Int) = m := by omega
      simp [h1, h2]
    · by_cases h2 : (2 : Int) = m <;> simp [h1, h2]
  ⟨by decide, hsame,
    (totals_order_insensitive utcRuntime headerRow [rowA1, rowB1, rowA2, rowB2]
      [rowA1, rowA2, rowB1, rowB2] (by decide) hsame).2 (by decide)⟩

/-! ## No cross-meter interaction (C9) -/

/-- C9: the total `calculateTotalPrices` returns for a meter `m` depends only on
the series of `m` and the initial entry of `m`: two series mappings that agree
on `m` and two totals mappings that agree on `m` give the same entry for `m`.
The entry of a meter without a series is left unchanged, and visiting the
meters in any other order gives the same entry. -/
theorem no_cross_meter_interaction (readings readings1 : GoMap (List Reading))
    (totalPrices totalPrices1 : GoMap ℚ) (m : Int)
    (hwf : readings.WF) (hwf1 : readings1.WF) :
    (readings.get? m = readings1.get? m → totalPrices.get? m = totalPrices1.get? m →
      (calculateTotalPrices readings totalPrices).get? m =
        (calculateTotalPrices readings1 totalPrices1).get? m) ∧
    (readings.get? m = none →
      (calculateTotalPrices readings totalPrices).get? m = totalPrices.get? m) ∧
    (∀ order : List (Int × List Reading), order.Perm readings →
      (rangeReadings readings order totalPrices).get? m =
        (calculateTotalPrices readings totalPrices).get? m) := by
  refine ⟨?_, ?_, ?_⟩
  · intro hr ht
    rw [get?_calculateTotalPrices readings totalPrices hwf m,
      get?_calculateTotalPrices readings1 totalPrices1 hwf1 m, hr, ht]
  · intro hr
    rw [get?_calculateTotalPrices readings totalPrices hwf m, hr]
  · intro order hp
    have hwo : GoMap.WF order := GoMap.WF_of_perm hp.symm hwf
    have hmem : ∀ e ∈ order, readings.get? e.1 = some e.2 :=
      fun e he => GoMap.get?_of_mem readings hwf e.1 e.2 (hp.mem_iff.mp he)
    rw [get?_rangeReadings readings order totalPrices hwo hmem m,
      get?_calculateTotalPrices readings totalPrices hwf m,
      GoMap.get?_perm hp.symm hwf m]

/-- C9 at two series mappings that share the series of meter 1 and differ in
meter 2, with totals that share the entry of meter 1. -/
theorem no_cross_meter_interaction_witness :
    GoMap.WF [((1 : Int), resetSeries), (2, [lateReading, nightReading])] ∧
    GoMap.WF [((3 : Int), [nightReading]), (1, resetSeries)] ∧
    (calculateTotalPrices [(1, resetSeries), (2, [lateReading, nightReading])]
        [(1, 7), (2, 0)]).get? 1 =
      (calculateTotalPrices [(3, [nightReading]), (1, resetSeries)] [(3, 5), (1, 7)]).get? 1 :=
  ⟨by simp [GoMap.WF, GoMap.keys], by simp [GoMap.WF, GoMap.keys],
    (no_cross_meter_interaction [(1, resetSeries), (2, [lateReading, nightReading])]
      [(3, [nightReading]), (1, resetSeries)] [(1, 7), (2, 0)] [(3, 5), (1, 7)] 1
      (by simp [GoMap.WF, GoMap.keys]) (by simp [GoMap.WF, GoMap.keys])).1
      (by simp [GoMap.get?]) (by simp [GoMap.get?])⟩

/-! ## Keys of the organized mappings (C10) -/

/-- C10: for every input with a header row and data rows of four fields,
`organizeInputData` returns a totals mapping whose keys are exactly the meter
ids occurring in the data rows (each once, the header row excluded), which are
also exactly the keys of the returned series mapping, and every value of the
totals mapping is `0`. -/
theorem organizeInputData_keys (rt : Runtime) (header : List String)
    (rows : List (List String)) (hrows : ∀ r ∈ rows, 4 ≤ r.length) :
    ∃ R T, organizeInputData rt (header :: rows) = some (R, T) ∧
      (∀ k, k ∈ GoMap.keys T ↔ k ∈ rows.map (rowMeter rt)) ∧
      (∀ k, k ∈ GoMap.keys R ↔ k ∈ GoMap.keys T) ∧
      (GoMap.keys T).Nodup ∧ (GoMap.keys R).Nodup ∧
      (∀ e ∈ T, e.2 = 0) := by
  obtain ⟨R, T, horg, hR, hT, hwR, hwT⟩ := organizeInputData_some rt header rows hrows
  have hkT : ∀ k, k ∈ GoMap.keys T ↔ k ∈ rows.map (rowMeter rt) := by
    intro k
    rw [← GoMap.get?_isSome_iff, hT k, ← seriesOfRows_ne_nil_iff]
    by_cases hn : seriesOfRows rt rows k = [] <;> simp [hn]
  have hkR : ∀ k, k ∈ GoMap.keys R ↔ k ∈ rows.map (rowMeter rt) := by
    intro k
    rw [← GoMap.get?_isSome_iff, hR k, ← seriesOfRows_ne_nil_iff]
    by_cases hn : seriesOfRows rt rows k = [] <;> simp [hn]
  refine ⟨R, T, horg, hkT, ?_, hwT, hwR, ?_⟩
  · intro k
    rw [hkR k, hkT k]
  · intro e he
    have hget := GoMap.get?_of_mem T hwT e.1 e.2 he
    rw [hT e.1] at hget
    by_cases hn : seriesOfRows rt rows e.1 = []
    · simp [hn] at hget
    · simp only [hn, if_false] at hget
      exact (Option.some.inj hget).symm

/-- C10 at the rows of meters 1 and 2: the keys are `1` and `2`. -/
theorem organizeInputData_keys_witness :
    (∀ r ∈ [rowA1, rowB1, rowA2, rowB2], 4 ≤ r.length) ∧
    [rowA1, rowB1, rowA2, rowB2].map (rowMeter utcRuntime) = [1, 2, 1, 2] ∧
    ∃ R T, organizeInputData utcRuntime (headerRow :: [rowA1, rowB1, rowA2, rowB2]) =
        some (R, T) ∧
      (∀ k, k ∈ GoMap.keys T ↔ k ∈ [rowA1, rowB1, rowA2, rowB2].map (rowMeter utcRuntime)) ∧
      (∀ k, k ∈ GoMap.keys R ↔ k ∈ GoMap.keys T) ∧
      (GoMap.keys T).Nodup ∧ (GoMap.keys R).Nodup ∧
      (∀ e ∈ T, e.2 = 0) :=
  ⟨by decide, by decide,
    organizeInputData_keys utcRuntime headerRow [rowA1, rowB1, rowA2, rowB2] (by decide)⟩

/-! ## Series of the organized mapping (C11) -/

theorem totalLength_set (readings : GoMap (List Reading)) (k : Int) (v : List Reading) :
    totalLength (readings.set k v) + (readings.index k []).length =
      totalLength readings + v.length := by
  induction readings with
  | nil => simp [totalLength, GoMap.set, GoMap.index, GoMap.get?]
  | cons e rest ih =>
    obtain ⟨a, b⟩ := e
    by_cases h : a = k
    · simp [totalLength, GoMap.set, GoMap.index, GoMap.get?, h]
      omega
    · have ih1 : (List.map (fun e => e.2.length) (GoMap.set rest k v)).sum +
          ((GoMap.get? rest k).getD []).length =
          (List.map (fun e => e.2.length) rest).sum + v.length := ih
      simp only [totalLength, GoMap.set, GoMap.index, GoMap.get?, h, if_false, List.map_cons,
        List.sum_cons]
      omega

theorem totalLength_appendReading (readings : GoMap (List Reading)) (m : Int)
    (reading : Reading) :
    totalLength (appendReading readings m reading) = totalLength readings + 1 := by
  unfold appendReading
  cases hg : readings.get? m with
  | some v =>
    have h := totalLength_set readings m (readings.index m [] ++ [reading])
    simp only [Option.isSome_some, if_true]
    simp only [List.length_append, List.length_singleton] at h
    omega
  | none =>
    have h1 := totalLength_set readings m []
    have h2 := totalLength_set (readings.set m []) m ((readings.set m []).index m [] ++ [reading])
    have hi : readings.index m [] = [] := by simp [GoMap.index, hg]
    have hi2 : (readings.set m []).index m [] = [] := by
      simp [GoMap.index, GoMap.get?_set_self]
    simp only [Option.isSome_none, Bool.false_eq_true, if_false]
    rw [hi2] at h2 ⊢
    rw [hi] at h1
    simp only [List.length_nil, List.nil_append, List.length_singleton, add_zero] at h1 h2 ⊢
    omega

theorem totalLength_rangeRows (rt : Runtime) :
    ∀ (rows : List (List String)) (state state1 : GoMap (List Reading) × GoMap ℚ),
      rangeRows rt rows state = some state1 →
      totalLength state1.1 = totalLength state.1 + rows.length := by
  intro rows
  induction rows with
  | nil =>
    intro state state1 h
    simp only [rangeRows, Option.some.injEq] at h
    simp [← h]
  | cons r rest ih =>
    intro state state1 h
    by_cases hr : r.length < 4
    · simp [rangeRows, organizeRow_short rt state r hr] at h
    · rw [rangeRows, organizeRow_ok rt state r (by omega)] at h
      have := ih _ _ h
      rw [this, totalLength_appendReading]
      simp only [List.length_cons]
      omega

/-- C11: for every input with a header row and data rows of four fields, the
series `organizeInputData` returns for a meter id `m` is exactly the list of
the readings parsed from the data rows whose meter id is `m`, in input order
(nothing re-ordered, no duplicate removed); a meter id has a series exactly
when some row carries it, and the lengths of all series sum to the number of
data rows. -/
theorem organizeInputData_series (rt : Runtime) (header : List String)
    (rows : List (List String)) (hrows : ∀ r ∈ rows, 4 ≤ r.length) :
    ∃ R T, organizeInputData rt (header :: rows) = some (R, T) ∧
      (∀ m, R.index m [] = seriesOfRows rt rows m) ∧
      (∀ m rs, R.get? m = some rs ↔ (rs = seriesOfRows rt rows m ∧ rs ≠ [])) ∧
      (∀ m, seriesOfRows rt rows m =
        (rows.filter (fun r => decide (rowMeter rt r = m))).map (rowReading rt)) ∧
      R.WF ∧ totalLength R = rows.length := by
  obtain ⟨R, T, horg, hR, _, hwR, _⟩ := organizeInputData_some rt header rows hrows
  refine ⟨R, T, horg, ?_, ?_, fun _ => rfl, hwR, ?_⟩
  · intro m
    unfold GoMap.index
    rw [hR m]
    by_cases hn : seriesOfRows rt rows m = [] <;> simp [hn]
  · intro m rs
    rw [hR m]
    by_cases hn : seriesOfRows rt rows m = []
    · simp only [hn, if_true]
      constructor
      · intro h; exact Option.noConfusion h
      · intro h; exact absurd h.1 h.2
    · simp only [hn, if_false, Option.some.injEq]
      constructor
      · intro h; exact ⟨h.symm, h ▸ hn⟩
      · intro h; exact h.1.symm
  · have h := totalLength_rangeRows rt rows ([], []) (R, T) horg
    simpa [totalLength] using h

/-- C11 at the interleaved rows of meters 1 and 2, the first row of meter 1
given twice: both copies are kept, in input order. -/
theorem organizeInputData_series_witness :
    (∀ r ∈ [rowA1, rowB1, rowA1, rowA2, rowB2], 4 ≤ r.length) ∧
    ∃ R T, organizeInputData utcRuntime (headerRow :: [rowA1, rowB1, rowA1, rowA2, rowB2]) =
        some (R, T) ∧
      (∀ m, R.index m [] = seriesOfRows utcRuntime [rowA1, rowB1, rowA1, rowA2, rowB2] m) ∧
      (∀ m rs, R.get? m = some rs ↔
        (rs = seriesOfRows utcRuntime [rowA1, rowB1, rowA1, rowA2, rowB2] m ∧ rs ≠ [])) ∧
      (∀ m, seriesOfRows utcRuntime [rowA1, rowB1, rowA1, rowA2, rowB2] m =
        ([rowA1, rowB1, rowA1, rowA2, rowB2].filter
          (fun r => decide (rowMeter utcRuntime r = m))).map (rowReading utcRuntime)) ∧
      R.WF ∧ totalLength R = [rowA1, rowB1, rowA1, rowA2, rowB2].length :=
  ⟨by decide,
    organizeInputData_series utcRuntime headerRow [rowA1, rowB1, rowA1, rowA2, rowB2]
      (by decide)⟩

/-! ## Rows that fail to parse (C12) -/

/-- C12 as stated fails: the row `1,1,abc,1415964000`, whose counter does not
parse, is not skipped. Between the rows of 1000 Wh and 2000 Wh of meter 1 it
adds a reading with counter `0` to the series, so the result differs from the
result on the input without the row, and the total of meter 1 becomes `0.40`
instead of `0.20`. -/
theorem failed_row_not_skipped :
    rowFails utcRuntime badRow = true ∧
    organizeInputData utcRuntime [headerRow, rowA1, badRow, rowA2] =
      some ([(1, [electricityAt 1000 1415963700, electricityAt 0 1415964000,
        electricityAt 2000 1415964600])], [(1, 0)]) ∧
    organizeInputData utcRuntime [headerRow, rowA1, rowA2] =
      some ([(1, [electricityAt 1000 1415963700, electricityAt 2000 1415964600])], [(1, 0)]) ∧
    organizeInputData utcRuntime [headerRow, rowA1, badRow, rowA2] ≠
      organizeInputData utcRuntime [headerRow, rowA1, rowA2] ∧
    calculateTotalPrices [(1, [electricityAt 1000 1415963700, electricityAt 0 1415964000,
        electricityAt 2000 1415964600])] [(1, 0)] = [(1, 2 / 5)] ∧
    calculateTotalPrices [(1, [electricityAt 1000 1415963700,
        electricityAt 2000 1415964600])] [(1, 0)] = [(1, 1 / 5)] := by
  refine ⟨by decide, by decide, by decide, by decide, ?_, ?_⟩
  · norm_num [calculateTotalPrices, rangeReadings, rangeSeries, pairStep, electricityAt,
      GoMap.index, GoMap.get?, GoMap.set, convertWattHourToKilowattHour, getPricePerHour,
      Signbit, ELECTRICITY_TYPE, Time.Weekday, Time.Hour, Time.localSec, Sunday, Saturday,
      WEEKDAY_ELECTRICITY_PRICE]
  · norm_num [calculateTotalPrices, rangeReadings, rangeSeries, pairStep, electricityAt,
      GoMap.index, GoMap.get?, GoMap.set, convertWattHourToKilowattHour, getPricePerHour,
      Signbit, ELECTRICITY_TYPE, Time.Weekday, Time.Hour, Time.localSec, Sunday, Saturday,
      WEEKDAY_ELECTRICITY_PRICE]

/-- C12 amended: a data row of four fields that fails to parse one or more of
its fields is kept. `organizeInputData` builds its reading from the values the
parsers return with their errors, appends it to the series of the meter id so
read (the series is the list of the readings of all rows with that id, in input
order), and sets the totals entry of that meter id to `0`. -/
theorem failed_row_is_kept (rt : Runtime) (header : List String) (rows : List (List String))
    (r : List String) (hrows : ∀ r1 ∈ rows, 4 ≤ r1.length) (hr : r ∈ rows)
    (_hfail : rowFails rt r = true) :
    ∃ R T, organizeInputData rt (header :: rows) = some (R, T) ∧
      R.get? (rowMeter rt r) = some (seriesOfRows rt rows (rowMeter rt r)) ∧
      rowReading rt r ∈ seriesOfRows rt rows (rowMeter rt r) ∧
      T.get? (rowMeter rt r) = some 0 := by
  obtain ⟨R, T, horg, hR, hT, _, _⟩ := organizeInputData_some rt header rows hrows
  have hmem : rowReading rt r ∈ seriesOfRows rt rows (rowMeter rt r) := by
    unfold seriesOfRows
    exact List.mem_map.mpr ⟨r, List.mem_filter.mpr ⟨hr, by simp⟩, rfl⟩
  have hne : seriesOfRows rt rows (rowMeter rt r) ≠ [] := List.ne_nil_of_mem hmem
  refine ⟨R, T, horg, ?_, hmem, ?_⟩
  · rw [hR, if_neg hne]
  · rw [hT, if_neg hne]

/-- C12 amended, at the row `1,1,abc,1415964000` between two rows of meter 1:
its reading, with counter `0`, is in the series of meter 1. -/
theorem failed_row_is_kept_witness :
    (∀ r1 ∈ [rowA1, badRow, rowA2], 4 ≤ r1.length) ∧ badRow ∈ [rowA1, badRow, rowA2] ∧
    rowFails utcRuntime badRow = true ∧
    rowMeter utcRuntime badRow = 1 ∧
    rowReading utcRuntime badRow = electricityAt 0 1415964000 ∧
    ∃ R T, organizeInputData utcRuntime (headerRow :: [rowA1, badRow, rowA2]) = some (R, T) ∧
      R.get? (rowMeter utcRuntime badRow) =
        some (seriesOfRows utcRuntime [rowA1, badRow, rowA2] (rowMeter utcRuntime badRow)) ∧
      rowReading utcRuntime badRow ∈
        seriesOfRows utcRuntime [rowA1, badRow, rowA2] (rowMeter utcRuntime badRow) ∧
      T.get? (rowMeter utcRuntime badRow) = some 0 :=
  ⟨by decide, by decide, by decide, by decide, by decide,
    failed_row_is_kept utcRuntime headerRow [rowA1, badRow, rowA2] badRow (by decide)
      (by decide) (by decide)⟩

/-! ## Unit conversion and unrecognised energy types (C14, C15) -/

/-- C14: for every counter `x`, `convertWattHourToKilowattHour x 1` is `x / 1000`
with no error, `convertWattHourToKilowattHour x 2` is `x * 9.769` with no error,
and for every other energy type the result is the value `0` together with an
error; an error is returned exactly when the energy type is outside `{1, 2}`. -/
theorem convertWattHourToKilowattHour_spec (x : ℚ) (energyType : Int) :
    convertWattHourToKilowattHour x 1 = (x / 1000, none) ∧
    convertWattHourToKilowattHour x 2 = (x * (9769 / 1000), none) ∧
    (convertWattHourToKilowattHour x energyType =
      if energyType = 1 then (x / 1000, none)
      else if energyType = 2 then (x * (9769 / 1000), none)
      else (0, some "Found a line with unknown energy type!")) ∧
    ((convertWattHourToKilowattHour x energyType).2.isSome = true ↔
      (energyType ≠ 1 ∧ energyType ≠ 2)) ∧
    ((convertWattHourToKilowattHour x energyType).2.isSome = true →
      (convertWattHourToKilowattHour x energyType).1 = 0) := by
  have hform : convertWattHourToKilowattHour x energyType =
      if energyType = 1 then (x / 1000, none)
      else if energyType = 2 then (x * (9769 / 1000), none)
      else (0, some "Found a line with unknown energy type!") := by
    simp only [convertWattHourToKilowattHour, ELECTRICITY_TYPE, GAS_TYPE]
  refine ⟨?_, ?_, hform, ?_, ?_⟩
  · simp [convertWattHourToKilowattHour, ELECTRICITY_TYPE]
  · simp [convertWattHourToKilowattHour, ELECTRICITY_TYPE, GAS_TYPE]
  · rw [hform]
    by_cases h1 : energyType = 1
    · simp [h1]
    · by_cases h2 : energyType = 2
      · simp [h2]
      · simp [h1, h2]
  · rw [hform]
    by_cases h1 : energyType = 1
    · simp [h1]
    · by_cases h2 : energyType = 2
      · simp [h2]
      · simp [h1, h2]

/-- C15: for every reading whose energy type is neither `1` nor `2`,
`getPricePerHour` is the default electricity price `0.18`, whatever the
timestamp. -/
theorem getPricePerHour_unknown (r : Reading) (h1 : r.energyType ≠ 1)
    (h2 : r.energyType ≠ 2) :
    getPricePerHour r = DEFAULT_ELECTRICITY_PRICE ∧ DEFAULT_ELECTRICITY_PRICE = 18 / 100 := by
  constructor
  · simp [getPricePerHour, ELECTRICITY_TYPE, GAS_TYPE, h1, h2]
  · rfl

/-- C15 at a reading of type 3 taken on a Friday at 12:00, inside the weekday
window of electricity. -/
theorem getPricePerHour_unknown_witness :
    (unknownAt 5).energyType ≠ 1 ∧ (unknownAt 5).energyType ≠ 2 ∧
    ((unknownAt 5).createdAt.Weekday = Friday ∧ (unknownAt 5).createdAt.Hour = 12) ∧
    getPricePerHour (unknownAt 5) = DEFAULT_ELECTRICITY_PRICE ∧
    DEFAULT_ELECTRICITY_PRICE = 18 / 100 :=
  ⟨by decide, by decide, ⟨by decide, by decide⟩,
    getPricePerHour_unknown (unknownAt 5) (by decide) (by decide)⟩

/-! ## Short series (C16) -/

/-- C16: a meter whose series has exactly one reading, or none, keeps its total
unchanged, whatever the reading; and in any series the loop body run at the
last position (or beyond) changes nothing, so the last reading never starts a
pair. -/
theorem short_series_unchanged (readings : GoMap (List Reading)) (totalPrices : GoMap ℚ)
    (m : Int) (hwf : readings.WF) (hlen : (readings.index m []).length ≤ 1) :
    (calculateTotalPrices readings totalPrices).get? m = totalPrices.get? m ∧
    (∀ (m1 : Int) (T : GoMap ℚ) (i : Nat) (a : Reading),
      (readings.index m1 []).length ≤ i + 1 → pairStep readings m1 T i a = T) := by
  constructor
  · rw [get?_calculateTotalPrices readings totalPrices hwf m]
    cases hrs : readings.get? m with
    | none => rfl
    | some rs =>
      have hl : rs.length ≤ 1 := by simpa [GoMap.index, hrs] using hlen
      match rs, hl with
      | [], _ => simp [seriesFold]
      | [_], _ => simp [seriesFold]
  · intro m1 T i a hi
    have hn : ¬ (i + 1 < (readings.index m1 []).length) := by omega
    simp only [pairStep, hn, dite_false]

/-- C16 at a meter with the single reading of Friday 22:59. -/
theorem short_series_unchanged_witness :
    GoMap.WF [((1 : Int), [lateReading])] ∧
    (GoMap.index [((1 : Int), [lateReading])] 1 []).length ≤ 1 ∧
    (calculateTotalPrices [(1, [lateReading])] [(1, 7)]).get? 1 =
      GoMap.get? [((1 : Int), (7 : ℚ))] 1 :=
  ⟨by simp [GoMap.WF, GoMap.keys], by simp [GoMap.index, GoMap.get?],
    (short_series_unchanged [(1, [lateReading])] [(1, 7)] 1
      (by simp [GoMap.WF, GoMap.keys]) (by simp [GoMap.index, GoMap.get?])).1⟩

/-! ## Domain of the reading organizer (C19) -/

/-- C19: `organizeInputData` returns exactly on the inputs that have at least
one row and whose rows after the first all have at least four fields. On a
header-only input it returns two empty mappings; on the empty input and on an
input with a data row of fewer than four fields it fails (an out-of-range
panic) instead of returning. -/
theorem organizeInputData_domain (rt : Runtime) (inputData : List (List String)) :
    ((organizeInputData rt inputData).isSome = true ↔
      (inputData ≠ [] ∧ ∀ r ∈ inputData.tail, 4 ≤ r.length)) ∧
    (∀ header : List String, organizeInputData rt [header] = some ([], [])) ∧
    organizeInputData rt [] = none ∧
    (∀ (header : List String) (rows : List (List String)),
      (∃ r ∈ rows, r.length < 4) → organizeInputData rt (header :: rows) = none) := by
  refine ⟨?_, fun _ => rfl, rfl, fun header rows h => organizeInputData_none rt header rows h⟩
  cases inputData with
  | nil => simp [organizeInputData]
  | cons header rows =>
    simp only [ne_eq, reduceCtorEq, not_false_eq_true, List.tail_cons, true_and]
    by_cases hall : ∀ r ∈ rows, 4 ≤ r.length
    · obtain ⟨R, T, horg, _⟩ := organizeInputData_some rt header rows hall
      simp only [horg, Option.isSome_some, true_iff]
      exact hall
    · have hbad : ∃ r ∈ rows, r.length < 4 := by
        push_neg at hall
        exact hall
      rw [organizeInputData_none rt header rows hbad]
      simp only [Option.isSome_none, Bool.false_eq_true, false_iff]
      exact hall

/-! ## Telescoping (C17) and bounds on pair costs -/

theorem convert_electricity (r : Reading) (h : r.energyType = ELECTRICITY_TYPE) :
    convert r = r.usage / 1000 := by
  simp [convert, convertWattHourToKilowattHour, h]

theorem convert_unknown (r : Reading) (h1 : r.energyType ≠ 1) (h2 : r.energyType ≠ 2) :
    convert r = 0 := by
  simp [convert, convertWattHourToKilowattHour, ELECTRICITY_TYPE, GAS_TYPE, h1, h2]

theorem seriesCost_telescope (p : ℚ) :
    ∀ (rest : List Reading) (a : Reading),
      (∀ r ∈ a :: rest, r.energyType = ELECTRICITY_TYPE) →
      List.Chain (fun x y => x.usage ≤ y.usage ∧ convert y - convert x ≤ 100) a rest →
      (∀ r ∈ (a :: rest).dropLast, getPricePerHour r = p) →
      seriesCost (a :: rest) =
        p * (((a :: rest).getLast (List.cons_ne_nil a rest)).usage - a.usage) / 1000 := by
  intro rest
  induction rest with
  | nil =>
    intro a _ _ _
    simp [seriesCost]
  | cons b rest1 ih =>
    intro a helec hchain hp
    have hab := (List.chain_cons.mp hchain).1
    have hrest := (List.chain_cons.mp hchain).2
    have hea : a.energyType = ELECTRICITY_TYPE := helec a (List.mem_cons_self _ _)
    have heb : b.energyType = ELECTRICITY_TYPE :=
      helec b (List.mem_cons_of_mem _ (List.mem_cons_self _ _))
    have hpa : getPricePerHour a = p := by
      apply hp
      simp [List.dropLast]
    have hih := ih b (fun r hr => helec r (List.mem_cons_of_mem _ hr)) hrest
      (fun r hr => hp r (by
        rw [List.dropLast_cons_of_ne_nil (List.cons_ne_nil b rest1)]
        exact List.mem_cons_of_mem _ hr))
    have hdelta : 0 ≤ convert b - convert a ∧ convert b - convert a ≤ 100 := by
      refine ⟨?_, hab.2⟩
      rw [convert_electricity a hea, convert_electricity b heb, ← sub_div]
      exact div_nonneg (sub_nonneg.mpr hab.1) (by norm_num)
    rw [seriesCost, hih, pairCost, if_pos hdelta, hpa, convert_electricity a hea,
      convert_electricity b heb, List.getLast_cons (List.cons_ne_nil b rest1)]
    ring

/-- C17: for a series of electricity readings of one meter whose counters are
non-decreasing, whose consecutive converted differences are all at most `100`,
and all of whose readings except possibly the last resolve to the same price
`p`, `calculateTotalPrices` started from the total `0` yields
`p * (last counter - first counter) / 1000`, whatever the number of
intermediate readings. -/
theorem telescoping_total (readings : GoMap (List Reading)) (totalPrices : GoMap ℚ)
    (m : Int) (rs : List Reading) (p : ℚ) (hwf : readings.WF)
    (hrs : readings.get? m = some rs) (hne : rs ≠ []) (h0 : totalPrices.index m 0 = 0)
    (helec : ∀ r ∈ rs, r.energyType = ELECTRICITY_TYPE)
    (hchain : rs.Chain' (fun x y => x.usage ≤ y.usage ∧ convert y - convert x ≤ 100))
    (hp : ∀ r ∈ rs.dropLast, getPricePerHour r = p) :
    (calculateTotalPrices readings totalPrices).index m 0 =
      p * ((rs.getLast hne).usage - (rs.head hne).usage) / 1000 := by
  rw [index_calculateTotalPrices readings totalPrices hwf m rs hrs, h0, zero_add]
  match rs, hne, helec, hchain, hp with
  | a :: rest, _, helec, hchain, hp =>
    exact seriesCost_telescope p rest a helec hchain hp

/-- C17 at three Friday-noon readings with counters 1000, 1500 and 3000 Wh,
all priced `0.20`: the total is `0.20 * 2000 / 1000`. -/
theorem telescoping_total_witness :
    GoMap.WF [((1 : Int), steadySeries)] ∧
    GoMap.index [((1 : Int), (0 : ℚ))] 1 0 = 0 ∧
    (∀ r ∈ steadySeries, r.energyType = ELECTRICITY_TYPE) ∧
    steadySeries.Chain' (fun x y => x.usage ≤ y.usage ∧ convert y - convert x ≤ 100) ∧
    (∀ r ∈ steadySeries.dropLast, getPricePerHour r = 20 / 100) ∧
    (calculateTotalPrices [(1, steadySeries)] [(1, 0)]).index 1 0 =
      20 / 100 * ((steadySeries.getLast (by decide)).usage -
        (steadySeries.head (by decide)).usage) / 1000 :=
  have helec : ∀ r ∈ steadySeries, r.energyType = ELECTRICITY_TYPE := by
    intro r hr
    simp only [steadySeries, List.mem_cons, List.mem_singleton, List.not_mem_nil,
      or_false] at hr
    rcases hr with h | h | h <;> rw [h] <;> rfl
  have hchain : steadySeries.Chain'
      (fun x y => x.usage ≤ y.usage ∧ convert y - convert x ≤ 100) := by
    simp only [steadySeries, List.chain'_cons, List.chain'_singleton, and_true]
    norm_num [convert, convertWattHourToKilowattHour, electricityAt]
  have hp : ∀ r ∈ steadySeries.dropLast, getPricePerHour r = 20 / 100 := by
    intro r hr
    simp only [steadySeries, List.dropLast, List.mem_cons, List.mem_singleton,
      List.not_mem_nil, or_false] at hr
    rcases hr with h | h <;> rw [h] <;>
      norm_num [getPricePerHour, electricityAt, ELECTRICITY_TYPE, Time.Weekday, Time.Hour,
        Time.localSec, Sunday, Saturday, WEEKDAY_ELECTRICITY_PRICE]
  ⟨by simp [GoMap.WF, GoMap.keys], by simp [GoMap.index, GoMap.get?], helec, hchain, hp,
    telescoping_total [(1, steadySeries)] [(1, 0)] 1 steadySeries (20 / 100)
      (by simp [GoMap.WF, GoMap.keys]) (by simp [GoMap.get?]) (by decide)
      (by simp [GoMap.index, GoMap.get?]) helec hchain hp⟩

theorem getPricePerHour_le (r : Reading) : getPricePerHour r ≤ 6 / 10 := by
  rcases getPricePerHour_cases r with h | h | h <;> rw [h] <;> norm_num

theorem pairCost_le_of_price (a b : Reading) (c : ℚ) (hc : getPricePerHour a ≤ c) :
    pairCost a b ≤ 100 * c := by
  have hc0 : 0 ≤ c := le_trans (le_of_lt (getPricePerHour_pos a)) hc
  unfold pairCost
  split
  · rename_i h
    exact mul_le_mul h.2 hc (le_of_lt (getPricePerHour_pos a)) (by norm_num)
  · exact mul_nonneg (by norm_num) hc0

theorem seriesCost_le (c : ℚ) :
    ∀ (rest : List Reading) (a : Reading),
      (∀ r ∈ a :: rest, getPricePerHour r ≤ c) →
      seriesCost (a :: rest) ≤ 100 * c * ((a :: rest).length - 1 : ℚ) := by
  intro rest
  induction rest with
  | nil => intro a _; simp [seriesCost]
  | cons b rest1 ih =>
    intro a hc
    have h1 := pairCost_le_of_price a b c (hc a (List.mem_cons_self _ _))
    have h2 := ih b (fun r hr => hc r (List.mem_cons_of_mem _ hr))
    rw [seriesCost]
    simp only [List.length_cons, Nat.cast_add, Nat.cast_one, add_sub_cancel_right] at h2 ⊢
    linarith

/-! ## Unrecognised energy types in the accumulator (C20) -/

theorem seriesCost_unknown :
    ∀ rs : List Reading, (∀ r ∈ rs, r.energyType ≠ 1 ∧ r.energyType ≠ 2) →
      seriesCost rs = 0 := by
  intro rs
  induction rs with
  | nil => intro _; simp [seriesCost]
  | cons a rest ih =>
    intro h
    cases rest with
    | nil => simp [seriesCost]
    | cons b rest1 =>
      have ha := h a (List.mem_cons_self _ _)
      have hb := h b (List.mem_cons_of_mem _ (List.mem_cons_self _ _))
      rw [seriesCost, ih (fun r hr => h r (List.mem_cons_of_mem _ hr)), pairCost,
        convert_unknown a ha.1 ha.2, convert_unknown b hb.1 hb.2]
      norm_num

/-- C20: for every adjacent pair `(a, b) = (rs[i], rs[i+1])` of the series of a
meter `m` in which `a` has an unrecognised energy type and `b` is an
electricity reading with counter `w`, `0 ≤ w / 1000 ≤ 100`, the total
`calculateTotalPrices` returns for `m` is the initial total, plus the costs of
the other pairs, plus `(w / 1000) * 0.18` for this pair: `a` converts to `0`,
so the whole counter of `b` is billed at the default electricity price. A
series whose readings all have unrecognised energy types adds nothing to the
total of its meter. -/
theorem unknown_type_pair (readings : GoMap (List Reading)) (totalPrices : GoMap ℚ)
    (m : Int) (rs : List Reading) (i : Nat) (a b : Reading)
    (hwf : readings.WF) (hrs : readings.get? m = some rs)
    (ha : rs[i]? = some a) (hb : rs[i + 1]? = some b)
    (ha1 : a.energyType ≠ 1) (ha2 : a.energyType ≠ 2)
    (hbe : b.energyType = ELECTRICITY_TYPE)
    (hw : 0 ≤ b.usage / 1000 ∧ b.usage / 1000 ≤ 100) :
    (calculateTotalPrices readings totalPrices).index m 0 =
      totalPrices.index m 0 + ∑ j in (Finset.range (rs.length - 1)).erase i, pairCostAt rs j +
        b.usage / 1000 * (18 / 100) ∧
    convert a = 0 ∧
    (∀ (readings1 : GoMap (List Reading)) (m1 : Int) (rs1 : List Reading), readings1.WF →
      readings1.get? m1 = some rs1 → (∀ r ∈ rs1, r.energyType ≠ 1 ∧ r.energyType ≠ 2) →
      (calculateTotalPrices readings1 totalPrices).index m1 0 = totalPrices.index m1 0) := by
  have hca : convert a = 0 := convert_unknown a ha1 ha2
  have hcb : convert b = b.usage / 1000 := convert_electricity b hbe
  have hprice : getPricePerHour a = 18 / 100 := by
    simp [getPricePerHour, ELECTRICITY_TYPE, GAS_TYPE, ha1, ha2, DEFAULT_ELECTRICITY_PRICE]
  have hcost : pairCost a b = b.usage / 1000 * (18 / 100) := by
    have hv : 0 ≤ convert b - convert a ∧ convert b - convert a ≤ 100 := by
      rw [hca, hcb, sub_zero]
      exact hw
    rw [pairCost, if_pos hv, hca, hcb, sub_zero, hprice]
  have hmain := index_calculateTotalPrices_pair readings totalPrices m rs i a b hwf hrs ha hb
  rw [hcost] at hmain
  refine ⟨hmain, hca, ?_⟩
  intro readings1 m1 rs1 hwf1 hrs1 hall
  rw [index_calculateTotalPrices readings1 totalPrices hwf1 m1 rs1 hrs1,
    seriesCost_unknown rs1 hall, add_zero]

/-- C20 at a reading of type 3 followed by an electricity reading of 2000 Wh:
`calculateTotalPrices` bills `2 * 0.18 = 0.36` although no consumption between
the two readings is known. -/
theorem unknown_type_pair_witness :
    GoMap.WF [((1 : Int), [unknownAt 7, nightReading])] ∧
    (unknownAt 7).energyType ≠ 1 ∧ (unknownAt 7).energyType ≠ 2 ∧
    nightReading.energyType = ELECTRICITY_TYPE ∧
    (0 ≤ nightReading.usage / 1000 ∧ nightReading.usage / 1000 ≤ 100) ∧
    (calculateTotalPrices [(1, [unknownAt 7, nightReading])] [(1, 0)]).index 1 0 =
      GoMap.index [((1 : Int), (0 : ℚ))] 1 0 +
        ∑ j in (Finset.range ([unknownAt 7, nightReading].length - 1)).erase 0,
          pairCostAt [unknownAt 7, nightReading] j +
        nightReading.usage / 1000 * (18 / 100) ∧
    (calculateTotalPrices [(1, [unknownAt 7, nightReading])] [(1, 0)]).index 1 0 = 9 / 25 :=
  ⟨by simp [GoMap.WF, GoMap.keys], by decide, by decide, by decide,
    by norm_num [nightReading, electricityAt],
    (unknown_type_pair [(1, [unknownAt 7, nightReading])] [(1, 0)] 1
      [unknownAt 7, nightReading] 0 (unknownAt 7) nightReading
      (by simp [GoMap.WF, GoMap.keys]) (by simp [GoMap.get?]) (by simp) (by simp)
      (by decide) (by decide) (by decide) (by norm_num [nightReading, electricityAt])).1,
    by norm_num [calculateTotalPrices, rangeReadings, rangeSeries, pairStep, unknownAt,
      nightReading, electricityAt, GoMap.index, GoMap.get?, GoMap.set,
      convertWattHourToKilowattHour, getPricePerHour, Signbit, ELECTRICITY_TYPE, GAS_TYPE,
      DEFAULT_ELECTRICITY_PRICE]⟩

/-! ## Output rounding in exact arithmetic

These lemmas describe `roundFloat` on the rational model only. They say nothing
about the rounding of the binary64 product `val * ratio`, which is treated on
the second embedding (section "Output rounding in binary64"). -/

theorem mathRound_nearest (x : ℚ) :
    ∃ k : Int, mathRound x = k ∧ |x - k| ≤ 1 / 2 ∧ (|x - k| = 1 / 2 → |x| < |(k : ℚ)|) := by
  by_cases hx : 0 ≤ x
  · refine ⟨⌊x + 1 / 2⌋, by simp [mathRound, hx], ?_, ?_⟩
    · have h1 := Int.floor_le (x + 1 / 2)
      have h2 := Int.lt_floor_add_one (x + 1 / 2)
      rw [abs_le]
      constructor <;> linarith
    · intro htie
      have h1 := Int.floor_le (x + 1 / 2)
      have h2 := Int.lt_floor_add_one (x + 1 / 2)
      have hk : (⌊x + 1 / 2⌋ : ℚ) = x + 1 / 2 := by
        rcases abs_eq (by norm_num : (0 : ℚ) ≤ 1 / 2) |>.mp htie with h | h
        · linarith
        · linarith
      rw [hk, abs_of_nonneg hx, abs_of_nonneg (by linarith)]
      linarith
  · have hx1 : x < 0 := not_le.mp hx
    refine ⟨-⌊-x + 1 / 2⌋, by simp [mathRound, hx], ?_, ?_⟩
    · have h1 := Int.floor_le (-x + 1 / 2)
      have h2 := Int.lt_floor_add_one (-x + 1 / 2)
      rw [abs_le]
      push_cast
      constructor <;> linarith
    · intro htie
      have h1 := Int.floor_le (-x + 1 / 2)
      have h2 := Int.lt_floor_add_one (-x + 1 / 2)
      push_cast at htie ⊢
      have hk : (⌊-x + 1 / 2⌋ : ℚ) = -x + 1 / 2 := by
        rcases abs_eq (by norm_num : (0 : ℚ) ≤ 1 / 2) |>.mp htie with h | h
        · linarith
        · linarith
      rw [hk, abs_of_neg hx1, abs_of_neg (by linarith)]
      linarith

theorem roundFloat_exact_nearest (v : ℚ) :
    ∃ k : Int, roundFloat v 2 = k / 100 ∧ |v - k / 100| ≤ 1 / 200 ∧
      (|v - k / 100| = 1 / 200 → |v| < |(k : ℚ) / 100|) := by
  obtain ⟨k, hk, hnear, htie⟩ := mathRound_nearest (v * 100)
  have habs : |v - k / 100| = |v * 100 - k| / 100 := by
    have e : v - k / 100 = (v * 100 - k) / 100 := by ring
    rw [e, abs_div]
    norm_num
  refine ⟨k, ?_, ?_, ?_⟩
  · simp only [roundFloat]
    norm_num
    rw [hk]
  · rw [habs]
    linarith
  · intro h
    rw [habs] at h
    have h1 : |v * 100 - k| = 1 / 2 := by linarith
    have h2 := htie h1
    have e : |v * 100| = |v| * 100 := by
      rw [abs_mul]
      norm_num
    rw [e] at h2
    rw [abs_div]
    norm_num
    linarith

theorem roundFloat_exact_examples :
    roundFloat (125 / 1000) 2 = 13 / 100 ∧ roundFloat (-(125 / 1000)) 2 = -(13 / 100) ∧
    roundFloat (2160000000000082 / 100000000000000000) 2 = 2 / 100 := by
  refine ⟨?_, ?_, ?_⟩
  · simp only [roundFloat, mathRound]
    norm_num
  · simp only [roundFloat, mathRound]
    norm_num
  · simp only [roundFloat, mathRound]
    norm_num

/-! ## The cost accumulator over `F64`: structure -/

namespace IEEE

theorem pairStepF_last (ar : Arith) (readings : GoMap (List Reading)) (m : Int)
    (T : GoMap F64) (i : Nat) (a : Reading) (h : (readings.index m []).length ≤ i + 1) :
    pairStep ar readings m T i a = T := by
  have hn : ¬ (i + 1 < (readings.index m []).length) := by omega
  simp only [pairStep, hn, dite_false]

theorem pairStepF_next (ar : Arith) (readings : GoMap (List Reading)) (m : Int)
    (T : GoMap F64) (i : Nat) (a b : Reading) (h : (readings.index m [])[i + 1]? = some b) :
    pairStep ar readings m T i a =
      if (F64.sub ar (convert ar b) (convert ar a)).Signbit = true ∨
          F64.lt (F64.const ar 100) (F64.sub ar (convert ar b) (convert ar a)) = true then T
      else T.set m (F64.add ar (T.index m (F64.fin 0))
        (F64.mul ar (F64.sub ar (convert ar b) (convert ar a)) (getPricePerHour ar a))) := by
  have hlt : i + 1 < (readings.index m []).length := by
    by_contra hge
    rw [List.getElem?_eq_none (by omega)] at h
    exact Option.noConfusion h
  have hb : (readings.index m [])[i + 1] = b := by
    have h2 := List.getElem?_eq_getElem hlt
    rw [h] at h2
    exact (Option.some.inj h2).symm
  simp only [pairStep, hlt, dite_true, hb, convert]

end IEEE

/-! ## Operations of `F64` on finite values -/

namespace IEEE

namespace F64

theorem finite_cases (x : F64) (h : x.isFinite = true) : x = negZero ∨ ∃ q, x = fin q := by
  cases x <;> simp [isFinite] at h ⊢

theorem neg_finite (x : F64) (h : x.isFinite = true) :
    (neg x).isFinite = true ∧ (neg x).toRat = -x.toRat := by
  rcases finite_cases x h with rfl | ⟨q, rfl⟩
  · simp [neg, isFinite, toRat]
  · by_cases hq : q = 0
    · simp [neg, isFinite, toRat, hq]
    · simp [neg, isFinite, toRat, hq]

theorem add_finite (ar : Arith) (x y : F64) (hx : x.isFinite = true) (hy : y.isFinite = true) :
    add ar x y = ofExact ar (x.Signbit && y.Signbit) (x.toRat + y.toRat) := by
  rcases finite_cases x hx with rfl | ⟨q, rfl⟩ <;> rcases finite_cases y hy with rfl | ⟨r, rfl⟩ <;>
    simp [add]

theorem sub_finite (ar : Arith) (x y : F64) (hx : x.isFinite = true) (hy : y.isFinite = true) :
    sub ar x y = ofExact ar (x.Signbit && (neg y).Signbit) (x.toRat - y.toRat) := by
  have hn := neg_finite y hy
  have h : sub ar x y = add ar x (neg y) := by
    rcases finite_cases x hx with rfl | ⟨q, rfl⟩ <;>
      rcases finite_cases y hy with rfl | ⟨r, rfl⟩ <;> simp [sub]
  rw [h, add_finite ar x (neg y) hx hn.1, hn.2, sub_eq_add_neg]

theorem mul_finite (ar : Arith) (x y : F64) (hx : x.isFinite = true) (hy : y.isFinite = true) :
    mul ar x y = ofExact ar (xor x.Signbit y.Signbit) (x.toRat * y.toRat) := by
  rcases finite_cases x hx with rfl | ⟨q, rfl⟩ <;> rcases finite_cases y hy with rfl | ⟨r, rfl⟩ <;>
    simp [mul]

theorem div_finite (ar : Arith) (x y : F64) (hx : x.isFinite = true) (hy : y.isFinite = true)
    (h0 : y.toRat ≠ 0) :
    div ar x y = ofExact ar (xor x.Signbit y.Signbit) (x.toRat / y.toRat) := by
  rcases finite_cases x hx with rfl | ⟨q, rfl⟩ <;> rcases finite_cases y hy with rfl | ⟨r, rfl⟩ <;>
    simp_all [div, toRat]

end F64

theorem getPricePerHourF_eq (ar : Arith) (a : Reading) :
    getPricePerHour ar a = F64.const ar (EnergyPrice.getPricePerHour a.toExact) := by
  unfold getPricePerHour EnergyPrice.getPricePerHour Reading.toExact
  simp only
  split
  · split <;> rfl
  · split <;> rfl

end IEEE

/-! ## The reading organizer over `F64` -/

namespace IEEE

theorem organizeRowF_ok (rt : Runtime) (state : GoMap (List Reading) × GoMap F64)
    (r : List String) (h : 4 ≤ r.length) :
    organizeRow rt state r =
      some (appendReading state.1 (rowMeter rt r) (rowReading rt r),
        state.2.set (rowMeter rt r) (F64.fin 0)) := by
  match r, h with
  | f0 :: f1 :: f2 :: f3 :: extra, _ =>
    simp [organizeRow, appendReading, rowMeter, rowReading]

end IEEE

/-! ## A NaN counter in the accumulator -/

namespace IEEE

end IEEE

/-! ## A NaN counter against the sum, the monotonicity and the bound (C1, C7, C18) -/

namespace IEEE

end IEEE

/-! ## Rounding to binary64 -/

namespace IEEE

theorem roundHalfEven_error (t : ℚ) : |(roundHalfEven t : ℚ) - t| ≤ 1 / 2 := by
  have h1 := Int.floor_le t
  have h2 := Int.lt_floor_add_one t
  unfold roundHalfEven
  split_ifs <;> rw [abs_le] <;> constructor <;> push_cast <;> linarith

theorem roundHalfEven_intCast (n : Int) : roundHalfEven (n : ℚ) = n := by
  simp [roundHalfEven]

theorem two_zpow_pos (e : Int) : (0 : ℚ) < (2 : ℚ) ^ e := zpow_pos (by norm_num) e

theorem log_le_of_lt (y : ℚ) (e : Int) (hy0 : y ≠ 0) (hy : |y| < (2 : ℚ) ^ (e + 1)) :
    Int.log 2 |y| ≤ e := by
  have hpos : 0 < |y| := abs_pos.mpr hy0
  have h := (Int.lt_zpow_iff_log_lt (b := 2) (by norm_num) hpos (x := e + 1)).mp
    (by exact_mod_cast hy)
  omega

theorem le_log_of_le (y : ℚ) (e : Int) (hy0 : y ≠ 0) (hy : (2 : ℚ) ^ e ≤ |y|) :
    e ≤ Int.log 2 |y| := by
  have hpos : 0 < |y| := abs_pos.mpr hy0
  exact (Int.zpow_le_iff_le_log (b := 2) (by norm_num) hpos (x := e)).mp (by exact_mod_cast hy)

theorem roundBinary64_error (y : ℚ) (e : Int) (he : -1022 ≤ e)
    (hy : |y| < (2 : ℚ) ^ (e + 1)) : |roundBinary64 y - y| ≤ (2 : ℚ) ^ (e - 53) := by
  by_cases hy0 : y = 0
  · simp [roundBinary64, hy0]
    exact le_of_lt (two_zpow_pos _)
  · have hlog := log_le_of_lt y e hy0 hy
    have hu : ulpExponent y ≤ e - 52 := by
      unfold ulpExponent
      omega
    have hupos := two_zpow_pos (ulpExponent y)
    have herr := roundHalfEven_error (y / (2 : ℚ) ^ ulpExponent y)
    have heq : roundBinary64 y - y =
        ((roundHalfEven (y / (2 : ℚ) ^ ulpExponent y) : ℚ) - y / (2 : ℚ) ^ ulpExponent y) *
          (2 : ℚ) ^ ulpExponent y := by
      simp only [roundBinary64, hy0, if_false]
      field_simp
    rw [heq, abs_mul, abs_of_pos hupos]
    have hmono : (2 : ℚ) ^ ulpExponent y ≤ (2 : ℚ) ^ (e - 52) :=
      zpow_le_zpow_right₀ (by norm_num) hu
    have hsplit : (2 : ℚ) ^ (e - 52) = 2 * (2 : ℚ) ^ (e - 53) := by
      have : e - 52 = (e - 53) + 1 := by ring
      rw [this, zpow_add_one₀ (by norm_num)]
      ring
    calc |(roundHalfEven (y / (2 : ℚ) ^ ulpExponent y) : ℚ) - y / (2 : ℚ) ^ ulpExponent y| *
          (2 : ℚ) ^ ulpExponent y
        ≤ 1 / 2 * (2 : ℚ) ^ ulpExponent y :=
          mul_le_mul_of_nonneg_right herr (le_of_lt hupos)
      _ ≤ 1 / 2 * (2 : ℚ) ^ (e - 52) := by linarith
      _ = (2 : ℚ) ^ (e - 53) := by rw [hsplit]; ring

/-- A number `n * 2 ^ j` with `|n| < 2 ^ 53` and `j ≥ -1074` is on the grid. -/
theorem roundBinary64_dyadic (n j : Int) (hn : |n| < 2 ^ 53) (hj : -1074 ≤ j) :
    roundBinary64 ((n : ℚ) * (2 : ℚ) ^ j) = (n : ℚ) * (2 : ℚ) ^ j := by
  by_cases hn0 : n = 0
  · simp [roundBinary64, hn0]
  · have hjpos := two_zpow_pos j
    have hy0 : (n : ℚ) * (2 : ℚ) ^ j ≠ 0 :=
      mul_ne_zero (by exact_mod_cast hn0) (ne_of_gt hjpos)
    have habs : |(n : ℚ) * (2 : ℚ) ^ j| < (2 : ℚ) ^ (52 + j + 1) := by
      rw [abs_mul, abs_of_pos hjpos]
      have h1 : |(n : ℚ)| < (2 : ℚ) ^ (53 : ℕ) := by
        have : ((|n| : Int) : ℚ) < ((2 ^ 53 : Int) : ℚ) := by exact_mod_cast hn
        simpa using this
      have h2 : (2 : ℚ) ^ (52 + j + 1) = (2 : ℚ) ^ (53 : ℕ) * (2 : ℚ) ^ j := by
        rw [show 52 + j + 1 = (53 : Int) + j by ring, zpow_add₀ (by norm_num)]
        norm_num
      rw [h2]
      exact mul_lt_mul_of_pos_right h1 hjpos
    have hlog := log_le_of_lt _ (52 + j) hy0 habs
    have hu : ulpExponent ((n : ℚ) * (2 : ℚ) ^ j) ≤ j := by
      unfold ulpExponent
      omega
    obtain ⟨k, hk⟩ : ∃ k : ℕ, j = ulpExponent ((n : ℚ) * (2 : ℚ) ^ j) + (k : Int) :=
      ⟨(j - ulpExponent ((n : ℚ) * (2 : ℚ) ^ j)).toNat, by omega⟩
    have hupos := two_zpow_pos (ulpExponent ((n : ℚ) * (2 : ℚ) ^ j))
    have hdiv : (n : ℚ) * (2 : ℚ) ^ j / (2 : ℚ) ^ ulpExponent ((n : ℚ) * (2 : ℚ) ^ j) =
        ((n * 2 ^ k : Int) : ℚ) := by
      have hjk : (2 : ℚ) ^ j =
          (2 : ℚ) ^ ulpExponent ((n : ℚ) * (2 : ℚ) ^ j) * (2 : ℚ) ^ (k : ℕ) := by
        conv_lhs => rw [hk]
        rw [zpow_add₀ (by norm_num), zpow_natCast]
      push_cast
      rw [div_eq_iff (ne_of_gt hupos)]
      conv_lhs => rw [hjk]
      ring
    simp only [roundBinary64, hy0, if_false]
    rw [hdiv, roundHalfEven_intCast, ← hdiv]
    field_simp

/-- Value of `roundBinary64` in the binade `[2 ^ e, 2 ^ (e + 1))`, `e ≥ -1022`. -/
theorem roundBinary64_binade (y : ℚ) (e : Int) (he : -1022 ≤ e) (h1 : (2 : ℚ) ^ e ≤ |y|)
    (h2 : |y| < (2 : ℚ) ^ (e + 1)) :
    roundBinary64 y = (roundHalfEven (y / (2 : ℚ) ^ (e - 52)) : ℚ) * (2 : ℚ) ^ (e - 52) := by
  have hy0 : y ≠ 0 := by
    intro h
    rw [h, abs_zero] at h1
    exact absurd h1 (not_le.mpr (two_zpow_pos e))
  have hlog : Int.log 2 |y| = e :=
    le_antisymm (log_le_of_lt y e hy0 h2) (le_log_of_le y e hy0 h1)
  have hu : ulpExponent y = e - 52 := by
    unfold ulpExponent
    omega
  simp only [roundBinary64, hy0, if_false, hu]

/-- A number on the grid of magnitude `2 ^ 56` or more is a multiple of 16. -/
theorem multiple_of_sixteen (a : ℚ) (hr : roundBinary64 a = a) (ha : (2 : ℚ) ^ (56 : Int) ≤ |a|) :
    ∃ k : Int, a = 16 * (k : ℚ) := by
  have ha0 : a ≠ 0 := by
    intro h
    rw [h, abs_zero] at ha
    exact absurd ha (not_le.mpr (two_zpow_pos 56))
  have hlog := le_log_of_le a 56 ha0 ha
  have hu : 4 ≤ ulpExponent a := by
    unfold ulpExponent
    omega
  obtain ⟨k, hk⟩ : ∃ k : ℕ, ulpExponent a = 4 + (k : Int) :=
    ⟨(ulpExponent a - 4).toNat, by omega⟩
  refine ⟨roundHalfEven (a / (2 : ℚ) ^ ulpExponent a) * 2 ^ k, ?_⟩
  have h := hr
  simp only [roundBinary64, ha0, if_false] at h
  have hpow : (2 : ℚ) ^ ulpExponent a = 16 * (2 : ℚ) ^ (k : ℕ) := by
    rw [hk, zpow_add₀ (by norm_num), zpow_natCast]
    norm_num
  conv_lhs => rw [← h]
  rw [hpow]
  push_cast
  ring

theorem roundHalfEven_eq (t : ℚ) (n : Int) (h1 : (n : ℚ) - 1 / 2 < t) (h2 : t < (n : ℚ) + 1 / 2) :
    roundHalfEven t = n := by
  have herr := roundHalfEven_error t
  rw [abs_le] at herr
  have hlt : ((roundHalfEven t - n : Int) : ℚ) < 1 := by push_cast; linarith [herr.2]
  have hgt : (-1 : ℚ) < ((roundHalfEven t - n : Int) : ℚ) := by push_cast; linarith [herr.1]
  have hlt1 : roundHalfEven t - n < 1 := by exact_mod_cast hlt
  have hgt1 : -1 < roundHalfEven t - n := by exact_mod_cast hgt
  omega

theorem mathRound_eq (x : ℚ) (n : Int) (h1 : (n : ℚ) - 1 / 2 < x) (h2 : x < (n : ℚ) + 1 / 2) :
    mathRound x = n := by
  obtain ⟨k, hk, hnear, _⟩ := mathRound_nearest x
  rw [abs_le] at hnear
  have hlt : ((k - n : Int) : ℚ) < 1 := by push_cast; linarith [hnear.1]
  have hgt : (-1 : ℚ) < ((k - n : Int) : ℚ) := by push_cast; linarith [hnear.2]
  have hlt1 : k - n < 1 := by exact_mod_cast hlt
  have hgt1 : -1 < k - n := by exact_mod_cast hgt
  have : k = n := by omega
  rw [hk, this]

namespace F64

theorem ofExact_b64_finite (ns zs : Bool) (r : ℚ) (h : |roundBinary64 r| < (2 : ℚ) ^ (1024 : ℕ)) :
    (ofExact (Arith.binary64 ns) zs r).isFinite = true ∧
    (ofExact (Arith.binary64 ns) zs r).toRat = roundBinary64 r := by
  unfold ofExact
  simp only [Arith.binary64, decide_eq_true_eq, not_le.mpr h, if_false]
  by_cases h0 : roundBinary64 r = 0
  · simp only [h0, if_true, signedZero]
    split_ifs <;> exact ⟨rfl, rfl⟩
  · simp [h0, isFinite, toRat]

theorem ofExact_b64_fin (ns zs : Bool) (r : ℚ) (h0 : roundBinary64 r ≠ 0)
    (h : |roundBinary64 r| < (2 : ℚ) ^ (1024 : ℕ)) :
    ofExact (Arith.binary64 ns) zs r = fin (roundBinary64 r) := by
  unfold ofExact
  simp only [Arith.binary64, decide_eq_true_eq, not_le.mpr h, if_false, h0]

/-- A positive integer below `2 ^ 53` is a constant of binary64. -/
theorem const_b64_nat (ns : Bool) (n : ℕ) (h0 : 0 < n) (hn : n < 2 ^ 53) :
    const (Arith.binary64 ns) (n : ℚ) = fin (n : ℚ) := by
  have hd := roundBinary64_dyadic (n : Int) 0 (by
    rw [abs_of_nonneg (by omega)]
    exact_mod_cast hn) (by norm_num)
  simp only [zpow_zero, mul_one, Int.cast_natCast] at hd
  have hpos : (0 : ℚ) < (n : ℚ) := by exact_mod_cast h0
  unfold const
  have hlt : |roundBinary64 (n : ℚ)| < (2 : ℚ) ^ (1024 : ℕ) := by
    rw [hd, abs_of_pos hpos]
    have h1 : (n : ℚ) < (2 : ℚ) ^ (53 : ℕ) := by exact_mod_cast hn
    have h2 : (2 : ℚ) ^ (53 : ℕ) < (2 : ℚ) ^ (1024 : ℕ) := by norm_num
    linarith
  rw [ofExact_b64_fin ns false _ (by rw [hd]; exact ne_of_gt hpos) hlt, hd]

theorem Round_finite (x : F64) (h : x.isFinite = true) :
    (Round x).isFinite = true ∧ (Round x).toRat = mathRound x.toRat := by
  have hz : mathRound 0 = 0 := by
    have := mathRound_eq 0 0 (by norm_num) (by norm_num)
    simpa using this
  rcases finite_cases x h with rfl | ⟨q, rfl⟩
  · refine ⟨rfl, ?_⟩
    simp only [Round, toRat]
    exact hz.symm
  · simp only [Round, toRat]
    by_cases h0 : mathRound q = 0
    · simp only [h0, if_true, signedZero]
      split_ifs <;> exact ⟨rfl, rfl⟩
    · simp [h0, isFinite, toRat]

end F64

end IEEE

namespace IEEE

theorem roundBinary64_lt (y : ℚ) (e : ℕ) (hy : |y| < (2 : ℚ) ^ e) :
    |roundBinary64 y| < (2 : ℚ) ^ (e + 1) := by
  have hy1 : |y| < (2 : ℚ) ^ (((e : Int) - 1) + 1) := by
    rw [sub_add_cancel, zpow_natCast]
    exact hy
  have herr := roundBinary64_error y ((e : Int) - 1) (by omega) hy1
  have hmono : (2 : ℚ) ^ ((e : Int) - 1 - 53) ≤ (2 : ℚ) ^ (e : Int) :=
    zpow_le_zpow_right₀ (by norm_num) (by omega)
  rw [zpow_natCast] at hmono
  have htri : |roundBinary64 y| ≤ |roundBinary64 y - y| + |y| := by
    have := abs_add (roundBinary64 y - y) y
    simpa using this
  rw [pow_succ]
  linarith

theorem roundBinary64_ne_zero (y : ℚ) (hy : (2 : ℚ) ^ (-1022 : Int) ≤ |y|) :
    roundBinary64 y ≠ 0 := by
  have hy0 : y ≠ 0 := by
    intro h
    rw [h, abs_zero] at hy
    exact absurd hy (not_le.mpr (two_zpow_pos _))
  have hpos : 0 < |y| := abs_pos.mpr hy0
  have h1 : (2 : ℚ) ^ Int.log 2 |y| ≤ |y| := by
    have := Int.zpow_log_le_self (b := 2) (r := |y|) (by norm_num) hpos
    exact_mod_cast this
  have h2 : |y| < (2 : ℚ) ^ (Int.log 2 |y| + 1) := by
    have := Int.lt_zpow_succ_log_self (b := 2) (by norm_num) |y|
    exact_mod_cast this
  have he := le_log_of_le y (-1022) hy0 hy
  have herr := roundBinary64_error y (Int.log 2 |y|) he h2
  have hlt : (2 : ℚ) ^ (Int.log 2 |y| - 53) < (2 : ℚ) ^ Int.log 2 |y| :=
    zpow_lt_zpow_right₀ (by norm_num) (by omega)
  intro h
  rw [h, zero_sub, abs_neg] at herr
  linarith

/-- Value of `roundFloat (., 2)` in binary64 at a finite `v`: the product
`v * 100` is rounded to binary64, `math.Round` takes the nearest integer `k`,
and `k / 100` is rounded to binary64. -/
theorem roundFloat_b64 (ns : Bool) (v : ℚ) (hv : |v| < (2 : ℚ) ^ (1000 : ℕ)) :
    (roundFloat (Arith.binary64 ns) (F64.fin v) 2).isFinite = true ∧
    (roundFloat (Arith.binary64 ns) (F64.fin v) 2).toRat =
      roundBinary64 (mathRound (roundBinary64 (v * 100)) / 100) ∧
    (mathRound (roundBinary64 (v * 100)) ≠ 0 →
      roundFloat (Arith.binary64 ns) (F64.fin v) 2 =
        F64.fin (roundBinary64 (mathRound (roundBinary64 (v * 100)) / 100))) := by
  have hratio : F64.pow10 (Arith.binary64 ns) 2 = F64.fin 100 := by
    have h := F64.const_b64_nat ns 100 (by norm_num) (by norm_num)
    unfold F64.pow10
    have e : ((10 : ℚ) ^ 2) = ((100 : ℕ) : ℚ) := by norm_num
    rw [e, h]
    norm_num
  have hprod : |v * 100| < (2 : ℚ) ^ (1007 : ℕ) := by
    rw [abs_mul]
    have e : (2 : ℚ) ^ (1007 : ℕ) = 2 ^ 1000 * 128 := by norm_num
    rw [e]
    have h0 := abs_nonneg v
    norm_num
    nlinarith
  have hx := roundBinary64_lt (v * 100) 1007 hprod
  have hmul := F64.mul_finite (Arith.binary64 ns) (F64.fin v) (F64.fin 100) rfl rfl
  simp only [F64.toRat] at hmul
  have hX := F64.ofExact_b64_finite ns (xor (F64.fin v).Signbit (F64.fin 100).Signbit) (v * 100)
    (lt_trans hx (by norm_num))
  rw [← hmul] at hX
  have hR := F64.Round_finite _ hX.1
  rw [hX.2] at hR
  obtain ⟨k, hk, hnear, _⟩ := mathRound_nearest (roundBinary64 (v * 100))
  have hkabs : |(k : ℚ) / 100| < (2 : ℚ) ^ (1008 : ℕ) := by
    have h1 : |(k : ℚ)| ≤ |roundBinary64 (v * 100)| + 1 / 2 := by
      have := abs_sub_abs_le_abs_sub (k : ℚ) (roundBinary64 (v * 100))
      rw [abs_sub_comm] at this
      linarith
    rw [abs_div]
    have h100 : |(100 : ℚ)| = 100 := by norm_num
    rw [h100, div_lt_iff₀ (by norm_num)]
    have hbig : (1 : ℚ) ≤ (2 : ℚ) ^ (1007 + 1 : ℕ) := one_le_pow₀ (by norm_num)
    have e : (2 : ℚ) ^ (1008 : ℕ) = (2 : ℚ) ^ (1007 + 1 : ℕ) := by norm_num
    rw [e]
    nlinarith
  have hq := roundBinary64_lt ((k : ℚ) / 100) 1008 hkabs
  have hlt : |roundBinary64 ((k : ℚ) / 100)| < (2 : ℚ) ^ (1024 : ℕ) :=
    lt_trans hq (by norm_num)
  have hdiv := F64.div_finite (Arith.binary64 ns)
    (F64.Round (F64.mul (Arith.binary64 ns) (F64.fin v) (F64.fin 100))) (F64.fin 100) hR.1 rfl
    (by simp [F64.toRat])
  have h100 : (F64.fin 100).toRat = 100 := rfl
  rw [h100, hR.2, hk] at hdiv
  have hrf : roundFloat (Arith.binary64 ns) (F64.fin v) 2 =
      F64.div (Arith.binary64 ns)
        (F64.Round (F64.mul (Arith.binary64 ns) (F64.fin v) (F64.fin 100))) (F64.fin 100) := by
    simp only [roundFloat, hratio]
  rw [hrf, hdiv, hk]
  have hfin := F64.ofExact_b64_finite ns
    (xor (F64.Round (F64.mul (Arith.binary64 ns) (F64.fin v) (F64.fin 100))).Signbit
      (F64.fin 100).Signbit) ((k : ℚ) / 100) hlt
  refine ⟨hfin.1, hfin.2, ?_⟩
  intro hk0
  have hk1 : k ≠ 0 := by
    intro h
    apply hk0
    rw [h]
    simp
  have hk2 : (1 : ℚ) ≤ |(k : ℚ)| := by
    have : (1 : Int) ≤ |k| := Int.one_le_abs hk1
    exact_mod_cast this
  have hne := roundBinary64_ne_zero ((k : ℚ) / 100) (by
    rw [abs_div]
    have h100 : |(100 : ℚ)| = 100 := by norm_num
    rw [h100, le_div_iff₀ (by norm_num)]
    have hs : (2 : ℚ) ^ (-1022 : Int) * 100 ≤ 1 := by norm_num
    exact le_trans hs hk2)
  exact F64.ofExact_b64_fin ns _ _ hne hlt

end IEEE

/-! ## Output rounding in binary64 (C13) -/

namespace IEEE

/-- C13 as stated fails in binary64. The float64 nearest `2.675` is
`v = 3011782250804019 / 2 ^ 50`, a little below `2.675`, so the multiple of
`0.01` nearest to `v` is `2.67`. But the product `v * 100` rounds to exactly
`267.5`, `math.Round` gives `268`, and `roundFloat (v, 2)` is the float64
nearest `2.68`, which is farther from `v` than `2.67` is. -/
theorem roundFloat_not_nearest :
    roundBinary64 (2675 / 1000) = 3011782250804019 / 2 ^ 50 ∧
    roundBinary64 (3011782250804019 / 2 ^ 50) = 3011782250804019 / 2 ^ 50 ∧
    roundBinary64 (3011782250804019 / 2 ^ 50 * 100) = 535 / 2 ∧
    roundFloat (Arith.binary64 true) (F64.fin (3011782250804019 / 2 ^ 50)) 2 =
      F64.fin (roundBinary64 (268 / 100)) ∧
    roundFloat (Arith.binary64 false) (F64.fin (3011782250804019 / 2 ^ 50)) 2 =
      F64.fin (roundBinary64 (268 / 100)) ∧
    ((267 / 100 : ℚ) < 3011782250804019 / 2 ^ 50 ∧
      (3011782250804019 / 2 ^ 50 : ℚ) - 267 / 100 < 268 / 100 - 3011782250804019 / 2 ^ 50) ∧
    (3011782250804019 / 2 ^ 50 : ℚ) - 267 / 100 <
      roundBinary64 (268 / 100) - 3011782250804019 / 2 ^ 50 := by
  have hnear : roundBinary64 (2675 / 1000) = 3011782250804019 / 2 ^ 50 := by
    rw [roundBinary64_binade (2675 / 1000) 1 (by norm_num) (by norm_num [abs_of_pos])
      (by norm_num [abs_of_pos]),
      roundHalfEven_eq _ 6023564501608038 (by norm_num) (by norm_num)]
    norm_num
  have hv : roundBinary64 (3011782250804019 / 2 ^ 50) = 3011782250804019 / 2 ^ 50 := by
    have h := roundBinary64_dyadic 3011782250804019 (-50) (by decide) (by norm_num)
    have e : ((3011782250804019 : Int) : ℚ) * (2 : ℚ) ^ (-50 : Int) =
        3011782250804019 / 2 ^ 50 := by norm_num
    rw [e] at h
    exact h
  have hx : roundBinary64 (3011782250804019 / 2 ^ 50 * 100) = 535 / 2 := by
    rw [roundBinary64_binade (3011782250804019 / 2 ^ 50 * 100) 8 (by norm_num)
      (by norm_num [abs_of_pos]) (by norm_num [abs_of_pos]),
      roundHalfEven_eq _ 4705909766881280 (by norm_num) (by norm_num)]
    norm_num
  have hk : mathRound (535 / 2) = 268 := by
    simp only [mathRound]
    norm_num
  have hsmall : |(3011782250804019 / 2 ^ 50 : ℚ)| < (2 : ℚ) ^ (1000 : ℕ) := by
    rw [abs_of_pos (by norm_num)]
    norm_num
  have hres : ∀ ns : Bool,
      roundFloat (Arith.binary64 ns) (F64.fin (3011782250804019 / 2 ^ 50)) 2 =
        F64.fin (roundBinary64 (268 / 100)) := by
    intro ns
    have h := (roundFloat_b64 ns (3011782250804019 / 2 ^ 50) hsmall).2.2
    rw [hx, hk] at h
    exact h (by norm_num)
  have herr := roundBinary64_error (268 / 100) 1 (by norm_num) (by norm_num [abs_of_pos])
  rw [abs_le] at herr
  have hpow : (2 : ℚ) ^ (1 - 53 : Int) ≤ 1 / 1000 := by norm_num
  refine ⟨hnear, hv, hx, hres true, hres false, ⟨by norm_num, by norm_num⟩, ?_⟩
  have h1 : (268 / 100 : ℚ) - 1 / 1000 ≤ roundBinary64 (268 / 100) := by linarith [herr.1]
  have h2 : (3011782250804019 / 2 ^ 50 : ℚ) < 2676 / 1000 := by norm_num
  linarith

/-- C13 amended: in binary64, for every finite `v` of magnitude below `2 ^ 1000`,
`roundFloat (v, 2)` is the float64 nearest `k / 100`, where `k` is the integer
nearest to the computed product, `v * 100` rounded to binary64, a half going
away from zero. When the product `v * 100` is exact, `k / 100` is the multiple
of `0.01` nearest to `v`, a value halfway between two multiples going away from
zero: `0.125` gives `0.13` and `-0.125` gives `-0.13`. The float64 nearest
`0.02160000000000082` gives `0.02`. -/
theorem roundFloat_binary64 (ns : Bool) (v : ℚ) (hv : |v| < (2 : ℚ) ^ (1000 : ℕ)) :
    (∃ k : Int,
      (roundFloat (Arith.binary64 ns) (F64.fin v) 2).isFinite = true ∧
      (roundFloat (Arith.binary64 ns) (F64.fin v) 2).toRat = roundBinary64 ((k : ℚ) / 100) ∧
      |roundBinary64 (v * 100) - k| ≤ 1 / 2 ∧
      (|roundBinary64 (v * 100) - k| = 1 / 2 → |roundBinary64 (v * 100)| < |(k : ℚ)|) ∧
      (roundBinary64 (v * 100) = v * 100 →
        |v - k / 100| ≤ 1 / 200 ∧ (|v - k / 100| = 1 / 200 → |v| < |(k : ℚ) / 100|))) ∧
    roundFloat (Arith.binary64 ns) (F64.fin (125 / 1000)) 2 =
      F64.fin (roundBinary64 (13 / 100)) ∧
    roundFloat (Arith.binary64 ns) (F64.fin (-(125 / 1000))) 2 =
      F64.fin (roundBinary64 (-(13 / 100))) ∧
    roundFloat (Arith.binary64 ns)
        (F64.fin (roundBinary64 (2160000000000082 / 100000000000000000))) 2 =
      F64.fin (roundBinary64 (2 / 100)) := by
  refine ⟨?_, ?_, ?_, ?_⟩
  · obtain ⟨k, hk, hnear, htie⟩ := mathRound_nearest (roundBinary64 (v * 100))
    have h := roundFloat_b64 ns v hv
    rw [hk] at h
    refine ⟨k, h.1, h.2.1, hnear, htie, ?_⟩
    intro hexact
    rw [hexact] at hnear htie
    have habs : |v - k / 100| = |v * 100 - k| / 100 := by
      have e : v - k / 100 = (v * 100 - k) / 100 := by ring
      rw [e, abs_div]
      norm_num
    constructor
    · rw [habs]
      linarith
    · intro ht
      rw [habs] at ht
      have h2 := htie (by linarith)
      have e : |v * 100| = |v| * 100 := by
        rw [abs_mul]
        norm_num
      rw [e] at h2
      rw [abs_div]
      norm_num
      linarith
  · have hx : roundBinary64 ((125 / 1000 : ℚ) * 100) = 25 / 2 := by
      have h := roundBinary64_dyadic 25 (-1) (by decide) (by norm_num)
      have e : ((25 : Int) : ℚ) * (2 : ℚ) ^ (-1 : Int) = (125 / 1000 : ℚ) * 100 := by norm_num
      rw [e] at h
      rw [h]
      norm_num
    have hk : mathRound (25 / 2) = 13 := by
      simp only [mathRound]
      norm_num
    have h := (roundFloat_b64 ns (125 / 1000) (by
      rw [abs_of_pos (by norm_num)]
      norm_num)).2.2
    rw [hx, hk] at h
    exact h (by norm_num)
  · have hx : roundBinary64 ((-(125 / 1000) : ℚ) * 100) = -(25 / 2) := by
      have h := roundBinary64_dyadic (-25) (-1) (by decide) (by norm_num)
      have e : ((-25 : Int) : ℚ) * (2 : ℚ) ^ (-1 : Int) = (-(125 / 1000) : ℚ) * 100 := by
        norm_num
      rw [e] at h
      rw [h]
      norm_num
    have hk : mathRound (-(25 / 2)) = -13 := by
      simp only [mathRound]
      norm_num
    have h := (roundFloat_b64 ns (-(125 / 1000)) (by
      rw [abs_of_neg (by norm_num)]
      norm_num)).2.2
    rw [hx, hk] at h
    have e : (-13 : ℚ) / 100 = -(13 / 100) := by norm_num
    rw [e] at h
    exact h (by norm_num)
  · have he1 := roundBinary64_error (2160000000000082 / 100000000000000000) (-6)
      (by norm_num) (by norm_num [abs_of_pos])
    rw [abs_le] at he1
    have hp1 : (2 : ℚ) ^ (-6 - 53 : Int) ≤ 1 / 100000 := by norm_num
    have hlo : (2159 / 100000 : ℚ) ≤
        roundBinary64 (2160000000000082 / 100000000000000000) := by linarith [he1.1]
    have hhi : roundBinary64 (2160000000000082 / 100000000000000000) ≤
        (2161 / 100000 : ℚ) := by linarith [he1.2]
    have habs : |roundBinary64 (2160000000000082 / 100000000000000000) * 100| <
        (2 : ℚ) ^ (1 + 1 : Int) := by
      rw [abs_lt]
      constructor <;> norm_num <;> linarith
    have he2 := roundBinary64_error
      (roundBinary64 (2160000000000082 / 100000000000000000) * 100) 1 (by norm_num) habs
    rw [abs_le] at he2
    have hp2 : (2 : ℚ) ^ (1 - 53 : Int) ≤ 1 / 1000 := by norm_num
    have hk : mathRound (roundBinary64
        (roundBinary64 (2160000000000082 / 100000000000000000) * 100)) = ((2 : Int) : ℚ) :=
      mathRound_eq _ 2 (by push_cast; linarith [he2.1]) (by push_cast; linarith [he2.2])
    have h := (roundFloat_b64 ns (roundBinary64 (2160000000000082 / 100000000000000000)) (by
      rw [abs_lt]
      have hbig : (1 : ℚ) ≤ (2 : ℚ) ^ (1000 : ℕ) := one_le_pow₀ (by norm_num)
      constructor <;> linarith)).2.2
    rw [hk] at h
    have e : (((2 : Int) : ℚ)) / 100 = 2 / 100 := by norm_num
    rw [e] at h
    exact h (by norm_num)

/-- C13 amended, at `v = 0.125`: the product `12.5` is exact, `k = 13`, and `0.13`
is the multiple of `0.01` nearest to `v` with the half going away from zero. -/
theorem roundFloat_binary64_witness :
    |(125 / 1000 : ℚ)| < (2 : ℚ) ^ (1000 : ℕ) ∧
    roundFloat (Arith.binary64 true) (F64.fin (125 / 1000)) 2 =
      F64.fin (roundBinary64 (13 / 100)) :=
  ⟨by rw [abs_of_pos (by norm_num)]; norm_num,
    (roundFloat_binary64 true (125 / 1000)
      (by rw [abs_of_pos (by norm_num)]; norm_num)).2.1⟩

end IEEE

/-! ## End-to-end scenario in binary64 (C6) -/

theorem getPricePerHour_weekday (r : Reading) (he : r.energyType = ELECTRICITY_TYPE)
    (hw : Monday ≤ r.createdAt.Weekday ∧ r.createdAt.Weekday ≤ Friday)
    (hh : 8 ≤ r.createdAt.Hour ∧ r.createdAt.Hour ≤ 22) : getPricePerHour r = 20 / 100 := by
  unfold getPricePerHour
  simp only [he, if_true, Sunday, Saturday, Monday, Friday, WEEKDAY_ELECTRICITY_PRICE,
    Bool.and_eq_true, decide_eq_true_eq, gt_iff_lt] at hw ⊢
  have hc : (¬ r.createdAt.Weekday = 0 ∧ ¬ r.createdAt.Weekday = 6) ∧
      7 < r.createdAt.Hour ∧ r.createdAt.Hour < 23 := by omega
  rw [if_pos hc]

namespace IEEE

/-- Totals after `calculateTotalPrices` for one meter with two readings and the
initial total `0`. -/
theorem calculateTotalPrices_two (ar : Arith) (m : Int) (a b : Reading) :
    calculateTotalPrices ar [(m, [a, b])] [(m, F64.fin 0)] =
      if (F64.sub ar (convert ar b) (convert ar a)).Signbit = true ∨
          F64.lt (F64.const ar 100) (F64.sub ar (convert ar b) (convert ar a)) = true then
        [(m, F64.fin 0)]
      else [(m, F64.add ar (F64.fin 0)
        (F64.mul ar (F64.sub ar (convert ar b) (convert ar a)) (getPricePerHour ar a)))] := by
  have hidx : (GoMap.index [(m, [a, b])] m [])[0 + 1]? = some b := by
    simp [GoMap.index, GoMap.get?]
  have hlen : (GoMap.index [(m, [a, b])] m []).length ≤ (0 + 1) + 1 := by
    simp [GoMap.index, GoMap.get?]
  have hrun : rangeSeries ar [(m, [a, b])] m 0 [a, b] [(m, F64.fin 0)] =
      pairStep ar [(m, [a, b])] m (pairStep ar [(m, [a, b])] m [(m, F64.fin 0)] 0 a)
        (0 + 1) b := rfl
  unfold calculateTotalPrices
  rw [rangeReadings, rangeReadings, hrun, pairStepF_last ar _ m _ (0 + 1) _ hlen,
    pairStepF_next ar _ m _ 0 _ _ hidx]
  split
  · rfl
  · simp [GoMap.set, GoMap.index, GoMap.get?]

/-- Two float64 values that differ by exactly 1000 are below `2 ^ 56 + 1000` in
magnitude: from `2 ^ 56` on, the float64 values are multiples of 16. -/
theorem counters_bounded (a b : ℚ) (hra : roundBinary64 a = a) (hrb : roundBinary64 b = b)
    (hd : b - a = 1000) : |a| < 2 ^ 56 + 1000 ∧ |b| < 2 ^ 56 + 1000 := by
  have hor : |a| < (2 : ℚ) ^ (56 : Int) ∨ |b| < (2 : ℚ) ^ (56 : Int) := by
    by_contra h
    push_neg at h
    obtain ⟨ka, hka⟩ := multiple_of_sixteen a hra h.1
    obtain ⟨kb, hkb⟩ := multiple_of_sixteen b hrb h.2
    have h16 : ((16 * (kb - ka) : Int) : ℚ) = ((1000 : Int) : ℚ) := by
      push_cast
      rw [← hd, hka, hkb]
      ring
    have h16i : 16 * (kb - ka) = 1000 := by exact_mod_cast h16
    omega
  have e : (2 : ℚ) ^ (56 : Int) = 2 ^ 56 := by norm_num
  rw [e] at hor
  have hb : b = a + 1000 := by linarith
  have ha : a = b - 1000 := by linarith
  rcases hor with h | h
  · refine ⟨by linarith, ?_⟩
    rw [hb]
    have := abs_add a 1000
    have h1000 : |(1000 : ℚ)| = 1000 := by norm_num
    linarith
  · refine ⟨?_, by linarith⟩
    rw [ha]
    have := abs_sub b 1000
    have h1000 : |(1000 : ℚ)| = 1000 := by norm_num
    linarith

/-- Converted counter of an electricity reading with a finite counter of
magnitude below `2 ^ 56 + 1000`, in binary64: finite, within `2 ^ -7` of the
exact quotient. -/
theorem convert_b64 (ns : Bool) (a : Reading) (he : a.energyType = ELECTRICITY_TYPE)
    (hf : a.usage.isFinite = true) (hb : |a.usage.toRat| < 2 ^ 56 + 1000) :
    (convert (Arith.binary64 ns) a).isFinite = true ∧
    |(convert (Arith.binary64 ns) a).toRat - a.usage.toRat / 1000| ≤ 1 / 128 := by
  have hc : F64.const (Arith.binary64 ns) 1000 = F64.fin 1000 := by
    have h := F64.const_b64_nat ns 1000 (by norm_num) (by norm_num)
    norm_num at h
    exact h
  have hconv : convert (Arith.binary64 ns) a =
      F64.div (Arith.binary64 ns) a.usage (F64.fin 1000) := by
    simp [convert, convertWattHourToKilowattHour, he, hc]
  have hdiv := F64.div_finite (Arith.binary64 ns) a.usage (F64.fin 1000) hf rfl
    (by simp [F64.toRat])
  have h1000 : (F64.fin 1000).toRat = 1000 := rfl
  rw [h1000] at hdiv
  have hq : |a.usage.toRat / 1000| < (2 : ℚ) ^ (47 : ℕ) := by
    rw [abs_div]
    have h2 : |(1000 : ℚ)| = 1000 := by norm_num
    rw [h2, div_lt_iff₀ (by norm_num)]
    have : (2 : ℚ) ^ 56 + 1000 ≤ (2 : ℚ) ^ (47 : ℕ) * 1000 := by norm_num
    linarith
  have hq1 : |a.usage.toRat / 1000| < (2 : ℚ) ^ (46 + 1 : Int) := by
    have e : (2 : ℚ) ^ (46 + 1 : Int) = (2 : ℚ) ^ (47 : ℕ) := by norm_num
    rw [e]
    exact hq
  have herr := roundBinary64_error (a.usage.toRat / 1000) 46 (by norm_num) hq1
  have hp : (2 : ℚ) ^ (46 - 53 : Int) = 1 / 128 := by norm_num
  rw [hp] at herr
  have hlt := roundBinary64_lt (a.usage.toRat / 1000) 47 hq
  have hfin := F64.ofExact_b64_finite ns (xor a.usage.Signbit (F64.fin 1000).Signbit)
    (a.usage.toRat / 1000) (lt_trans hlt (by norm_num))
  rw [hconv, hdiv]
  exact ⟨hfin.1, by rw [hfin.2]; exact herr⟩

end IEEE

namespace IEEE

/-- In binary64, two electricity readings of one meter whose counters are
float64 values exactly 1000 apart, the earlier one priced `0.20`, leave a total
`t` within `0.0035` of `0.20`. -/
theorem pair_total_b64 (ns : Bool) (m : Int) (a b : Reading)
    (hea : a.energyType = ELECTRICITY_TYPE) (heb : b.energyType = ELECTRICITY_TYPE)
    (hfa : a.usage.isFinite = true) (hfb : b.usage.isFinite = true)
    (hra : roundBinary64 a.usage.toRat = a.usage.toRat)
    (hrb : roundBinary64 b.usage.toRat = b.usage.toRat)
    (hd : b.usage.toRat - a.usage.toRat = 1000)
    (hprice : EnergyPrice.getPricePerHour a.toExact = 20 / 100) :
    ∃ t : ℚ, calculateTotalPrices (Arith.binary64 ns) [(m, [a, b])] [(m, F64.fin 0)] =
        [(m, F64.fin t)] ∧ 19657 / 100000 ≤ t ∧ t ≤ 20344 / 100000 := by
  have hbound := counters_bounded a.usage.toRat b.usage.toRat hra hrb hd
  have hK1 := convert_b64 ns a hea hfa hbound.1
  have hK2 := convert_b64 ns b heb hfb hbound.2
  rw [abs_le] at hK1 hK2
  -- the delta
  have hsub := F64.sub_finite (Arith.binary64 ns) _ _ hK2.1 hK1.1
  have hd1 : (1 : ℚ) - 1 / 64 ≤
      (convert (Arith.binary64 ns) b).toRat - (convert (Arith.binary64 ns) a).toRat := by
    have e : b.usage.toRat / 1000 = a.usage.toRat / 1000 + 1 := by
      have : b.usage.toRat = a.usage.toRat + 1000 := by linarith
      rw [this]
      ring
    linarith [hK1.2.2, hK2.2.1]
  have hd2 : (convert (Arith.binary64 ns) b).toRat - (convert (Arith.binary64 ns) a).toRat ≤
      1 + 1 / 64 := by
    have e : b.usage.toRat / 1000 = a.usage.toRat / 1000 + 1 := by
      have : b.usage.toRat = a.usage.toRat + 1000 := by linarith
      rw [this]
      ring
    linarith [hK1.2.1, hK2.2.2]
  have hdabs : |(convert (Arith.binary64 ns) b).toRat - (convert (Arith.binary64 ns) a).toRat| <
      (2 : ℚ) ^ (0 + 1 : Int) := by
    rw [abs_lt]
    norm_num
    constructor <;> linarith
  have hue := le_trans (roundBinary64_error _ 0 (by norm_num) hdabs)
    (by norm_num : (2 : ℚ) ^ (0 - 53 : Int) ≤ 1 / 1000)
  rw [abs_le] at hue
  have hu1 : (983 / 1000 : ℚ) ≤ roundBinary64
      ((convert (Arith.binary64 ns) b).toRat - (convert (Arith.binary64 ns) a).toRat) := by
    linarith [hue.1]
  have hu2 : roundBinary64
      ((convert (Arith.binary64 ns) b).toRat - (convert (Arith.binary64 ns) a).toRat) ≤
      (1017 / 1000 : ℚ) := by
    linarith [hue.2]
  have husage : F64.sub (Arith.binary64 ns) (convert (Arith.binary64 ns) b)
      (convert (Arith.binary64 ns) a) = F64.fin (roundBinary64
        ((convert (Arith.binary64 ns) b).toRat - (convert (Arith.binary64 ns) a).toRat)) := by
    rw [hsub]
    apply F64.ofExact_b64_fin
    · intro h0
      rw [h0] at hu1
      norm_num at hu1
    · rw [abs_lt]
      have hbig : (2 : ℚ) ≤ (2 : ℚ) ^ (1024 : ℕ) := by norm_num
      constructor <;> linarith
  generalize roundBinary64
    ((convert (Arith.binary64 ns) b).toRat - (convert (Arith.binary64 ns) a).toRat) = u
    at hu1 hu2 husage
  -- the guard
  have hc100 : F64.const (Arith.binary64 ns) 100 = F64.fin 100 := by
    have h := F64.const_b64_nat ns 100 (by norm_num) (by norm_num)
    norm_num at h
    exact h
  have hguard : ¬ ((F64.sub (Arith.binary64 ns) (convert (Arith.binary64 ns) b)
        (convert (Arith.binary64 ns) a)).Signbit = true ∨
      F64.lt (F64.const (Arith.binary64 ns) 100)
        (F64.sub (Arith.binary64 ns) (convert (Arith.binary64 ns) b)
          (convert (Arith.binary64 ns) a)) = true) := by
    rw [husage, hc100]
    simp only [F64.Signbit, F64.lt, F64.toRat, decide_eq_true_eq, not_or, not_lt]
    constructor <;> linarith
  -- the price
  have hpabs : |(20 / 100 : ℚ)| < (2 : ℚ) ^ (-3 + 1 : Int) := by
    rw [abs_of_pos (by norm_num)]
    norm_num
  have hpe := le_trans (roundBinary64_error (20 / 100) (-3) (by norm_num) hpabs)
    (by norm_num : (2 : ℚ) ^ (-3 - 53 : Int) ≤ 1 / 100000)
  rw [abs_le] at hpe
  have hp1 : (19999 / 100000 : ℚ) ≤ roundBinary64 (20 / 100) := by linarith [hpe.1]
  have hp2 : roundBinary64 (20 / 100) ≤ (20001 / 100000 : ℚ) := by linarith [hpe.2]
  have hpriceF : getPricePerHour (Arith.binary64 ns) a = F64.fin (roundBinary64 (20 / 100)) := by
    rw [getPricePerHourF_eq, hprice]
    unfold F64.const
    apply F64.ofExact_b64_fin
    · intro h0
      rw [h0] at hp1
      norm_num at hp1
    · rw [abs_lt]
      have hbig : (2 : ℚ) ≤ (2 : ℚ) ^ (1024 : ℕ) := by norm_num
      constructor <;> linarith
  generalize roundBinary64 (20 / 100) = p at hp1 hp2 hpriceF
  -- the cost
  have hup1 : (983 / 1000 : ℚ) * (19999 / 100000) ≤ u * p :=
    mul_le_mul hu1 hp1 (by norm_num) (by linarith)
  have hup2 : u * p ≤ (1017 / 1000 : ℚ) * (20001 / 100000) :=
    mul_le_mul hu2 hp2 (by linarith) (by norm_num)
  have hcabs : |u * p| < (2 : ℚ) ^ (-1 + 1 : Int) := by
    rw [abs_lt]
    norm_num
    constructor <;> linarith
  have hce := le_trans (roundBinary64_error _ (-1) (by norm_num) hcabs)
    (by norm_num : (2 : ℚ) ^ (-1 - 53 : Int) ≤ 1 / 100000)
  rw [abs_le] at hce
  have hc1 : (19658 / 100000 : ℚ) ≤ roundBinary64 (u * p) := by linarith [hce.1]
  have hc2 : roundBinary64 (u * p) ≤ (20343 / 100000 : ℚ) := by linarith [hce.2]
  have hcost : F64.mul (Arith.binary64 ns)
      (F64.sub (Arith.binary64 ns) (convert (Arith.binary64 ns) b)
        (convert (Arith.binary64 ns) a))
      (getPricePerHour (Arith.binary64 ns) a) = F64.fin (roundBinary64 (u * p)) := by
    rw [husage, hpriceF, F64.mul_finite (Arith.binary64 ns) (F64.fin u) (F64.fin p) rfl rfl]
    simp only [F64.toRat]
    apply F64.ofExact_b64_fin
    · intro h0
      rw [h0] at hc1
      norm_num at hc1
    · rw [abs_lt]
      have hbig : (2 : ℚ) ≤ (2 : ℚ) ^ (1024 : ℕ) := by norm_num
      constructor <;> linarith
  generalize roundBinary64 (u * p) = c at hc1 hc2 hcost
  -- the total
  have htabs : |0 + c| < (2 : ℚ) ^ (-1 + 1 : Int) := by
    rw [abs_lt]
    norm_num
    constructor <;> linarith
  have hte := le_trans (roundBinary64_error _ (-1) (by norm_num) htabs)
    (by norm_num : (2 : ℚ) ^ (-1 - 53 : Int) ≤ 1 / 100000)
  rw [abs_le] at hte
  refine ⟨roundBinary64 (0 + c), ?_, by linarith [hte.1], by linarith [hte.2]⟩
  rw [calculateTotalPrices_two, if_neg hguard, hcost,
    F64.add_finite (Arith.binary64 ns) (F64.fin 0) (F64.fin c) rfl rfl]
  simp only [F64.toRat]
  rw [F64.ofExact_b64_fin]
  · intro h0
    rw [h0] at hte
    linarith [hte.2]
  · rw [abs_lt]
    have hbig : (2 : ℚ) ≤ (2 : ℚ) ^ (1024 : ℕ) := by norm_num
    constructor <;> linarith [hte.1, hte.2]

/-- In binary64, `roundFloat (., 2)` of a total within `0.0035` of `0.20` is the
float64 nearest `0.20`. -/
theorem roundFloat_near_b64 (ns : Bool) (t : ℚ) (h1 : 19657 / 100000 ≤ t)
    (h2 : t ≤ 20344 / 100000) :
    roundFloat (Arith.binary64 ns) (F64.fin t) 2 = F64.fin (roundBinary64 (20 / 100)) := by
  have habs : |t * 100| < (2 : ℚ) ^ (4 + 1 : Int) := by
    rw [abs_lt]
    norm_num
    constructor <;> linarith
  have herr := le_trans (roundBinary64_error (t * 100) 4 (by norm_num) habs)
    (by norm_num : (2 : ℚ) ^ (4 - 53 : Int) ≤ 1 / 1000)
  rw [abs_le] at herr
  have hk : mathRound (roundBinary64 (t * 100)) = ((20 : Int) : ℚ) :=
    mathRound_eq _ 20 (by push_cast; linarith [herr.1]) (by push_cast; linarith [herr.2])
  have h := (roundFloat_b64 ns t (by
    rw [abs_lt]
    have hbig : (1 : ℚ) ≤ (2 : ℚ) ^ (1000 : ℕ) := one_le_pow₀ (by norm_num)
    constructor <;> linarith)).2.2
  rw [hk] at h
  have e : (((20 : Int) : ℚ)) / 100 = 20 / 100 := by norm_num
  rw [e] at h
  exact h (by norm_num)

end IEEE

namespace IEEE

/-- C6: end-to-end scenario in binary64. For every input made of a header row
and two rows of one meter `m`, both electricity, whose counters are float64
values that differ by exactly 1000 watt-hours and whose earlier reading falls
on a weekday at an hour between 8 and 22, `organizeInputData`, then
`calculateTotalPrices`, then `roundFloat (., 2)` on each entry yields exactly
one entry, for `m`, whose cost is the float64 nearest `0.20`. -/
theorem end_to_end_scenario (ns : Bool) (rt : Runtime) (header r1 r2 : List String) (m : Int)
    (h1 : 4 ≤ r1.length) (h2 : 4 ≤ r2.length)
    (hm1 : rowMeter rt r1 = m) (hm2 : rowMeter rt r2 = m)
    (he1 : (rowReading rt r1).energyType = ELECTRICITY_TYPE)
    (he2 : (rowReading rt r2).energyType = ELECTRICITY_TYPE)
    (hf1 : (rowReading rt r1).usage.isFinite = true)
    (hf2 : (rowReading rt r2).usage.isFinite = true)
    (hr1 : roundBinary64 (rowReading rt r1).usage.toRat = (rowReading rt r1).usage.toRat)
    (hr2 : roundBinary64 (rowReading rt r2).usage.toRat = (rowReading rt r2).usage.toRat)
    (hd : (rowReading rt r2).usage.toRat - (rowReading rt r1).usage.toRat = 1000)
    (hw : Monday ≤ (rowReading rt r1).createdAt.Weekday ∧
      (rowReading rt r1).createdAt.Weekday ≤ Friday)
    (hh : 8 ≤ (rowReading rt r1).createdAt.Hour ∧ (rowReading rt r1).createdAt.Hour ≤ 22) :
    ∃ R T, organizeInputData rt [header, r1, r2] = some (R, T) ∧
      roundedTotals (Arith.binary64 ns) (calculateTotalPrices (Arith.binary64 ns) R T) =
        [(m, F64.fin (roundBinary64 (20 / 100)))] := by
  have horg : organizeInputData rt [header, r1, r2] =
      some ([(m, [rowReading rt r1, rowReading rt r2])], [(m, F64.fin 0)]) := by
    simp [organizeInputData, rangeRows, organizeRowF_ok, h1, h2, hm1, hm2, appendReading,
      GoMap.get?, GoMap.set, GoMap.index]
  have hprice : EnergyPrice.getPricePerHour (rowReading rt r1).toExact = 20 / 100 :=
    getPricePerHour_weekday _ he1 hw hh
  obtain ⟨t, ht, ht1, ht2⟩ := pair_total_b64 ns m (rowReading rt r1) (rowReading rt r2)
    he1 he2 hf1 hf2 hr1 hr2 hd hprice
  refine ⟨_, _, horg, ?_⟩
  rw [ht]
  simp only [roundedTotals, List.map_cons, List.map_nil]
  rw [roundFloat_near_b64 ns t ht1 ht2]

end IEEE

namespace IEEE

/-- Evaluation of `roundBinary64` at `y` in the binade `[2 ^ e, 2 ^ (e + 1))`:
the integer `n` nearest to `y / 2 ^ (e - 52)`, scaled back. -/
theorem roundBinary64_val (y : ℚ) (e n : Int) (he : -1022 ≤ e) (h1 : (2 : ℚ) ^ e ≤ |y|)
    (h2 : |y| < (2 : ℚ) ^ (e + 1)) (h3 : (n : ℚ) - 1 / 2 < y / (2 : ℚ) ^ (e - 52))
    (h4 : y / (2 : ℚ) ^ (e - 52) < (n : ℚ) + 1 / 2) :
    roundBinary64 y = (n : ℚ) * (2 : ℚ) ^ (e - 52) := by
  rw [roundBinary64_binade y e he h1 h2, roundHalfEven_eq _ n h3 h4]

theorem ofExact_b64_val (ns zs : Bool) (r y : ℚ) (hy : roundBinary64 r = y) (h0 : y ≠ 0)
    (hlt : |y| < (2 : ℚ) ^ (1024 : ℕ)) : F64.ofExact (Arith.binary64 ns) zs r = F64.fin y := by
  rw [F64.ofExact_b64_fin ns zs r (by rw [hy]; exact h0) (by rw [hy]; exact hlt), hy]

/-- The readings of the rows with the counters 1 Wh and 1001 Wh. -/
theorem rowC_readings :
    rowReading utcRuntime rowC1 = electricityAt (F64.fin 1) 1415963700 ∧
    rowReading utcRuntime rowC2 = electricityAt (F64.fin 1001) 1415964600 := by
  constructor <;> decide

/-- In binary64 the counters 1 Wh and 1001 Wh leave the raw total
`7205759403792793 / 2 ^ 55 = 0.19999999999999998`, one unit in the last place
below the float64 nearest `0.20`. -/
theorem calculateTotalPrices_rowC (ns : Bool) :
    calculateTotalPrices (Arith.binary64 ns)
        [(1, [electricityAt (F64.fin 1) 1415963700, electricityAt (F64.fin 1001) 1415964600])]
        [(1, F64.fin 0)] = [(1, F64.fin (7205759403792793 / 2 ^ 55))] ∧
    roundBinary64 (20 / 100) = 3602879701896397 / 2 ^ 54 := by
  have hk1 : roundBinary64 (1 / 1000) = 1152921504606847 / 2 ^ 60 := by
    rw [roundBinary64_val (1 / 1000) (-10) 4611686018427388 (by norm_num)
      (by norm_num [abs_of_pos]) (by norm_num [abs_of_pos]) (by norm_num) (by norm_num)]
    norm_num
  have hk2 : roundBinary64 (1001 / 1000) = 2254051613498933 / 2 ^ 51 := by
    rw [roundBinary64_val (1001 / 1000) 0 4508103226997866 (by norm_num)
      (by norm_num [abs_of_pos]) (by norm_num [abs_of_pos]) (by norm_num) (by norm_num)]
    norm_num
  have hu : roundBinary64 (2254051613498933 / 2 ^ 51 - 1152921504606847 / 2 ^ 60) =
      9007199254740991 / 2 ^ 53 := by
    rw [roundBinary64_val _ (-1) 9007199254740991 (by norm_num)
      (by norm_num [abs_of_pos]) (by norm_num [abs_of_pos]) (by norm_num) (by norm_num)]
    norm_num
  have hp : roundBinary64 (20 / 100) = 3602879701896397 / 2 ^ 54 := by
    rw [roundBinary64_val (20 / 100) (-3) 7205759403792794 (by norm_num)
      (by norm_num [abs_of_pos]) (by norm_num [abs_of_pos]) (by norm_num) (by norm_num)]
    norm_num
  have hc : roundBinary64 (9007199254740991 / 2 ^ 53 * (3602879701896397 / 2 ^ 54)) =
      7205759403792793 / 2 ^ 55 := by
    rw [roundBinary64_val _ (-3) 7205759403792793 (by norm_num)
      (by norm_num [abs_of_pos]) (by norm_num [abs_of_pos]) (by norm_num) (by norm_num)]
    norm_num
  have ht : roundBinary64 (0 + 7205759403792793 / 2 ^ 55) = 7205759403792793 / 2 ^ 55 := by
    have h := roundBinary64_dyadic 7205759403792793 (-55) (by decide) (by norm_num)
    have e : ((7205759403792793 : Int) : ℚ) * (2 : ℚ) ^ (-55 : Int) =
        0 + 7205759403792793 / 2 ^ 55 := by norm_num
    rw [e] at h
    rw [h]
    norm_num
  have hc1000 : F64.const (Arith.binary64 ns) 1000 = F64.fin 1000 := by
    have h := F64.const_b64_nat ns 1000 (by norm_num) (by norm_num)
    norm_num at h
    exact h
  have hc100 : F64.const (Arith.binary64 ns) 100 = F64.fin 100 := by
    have h := F64.const_b64_nat ns 100 (by norm_num) (by norm_num)
    norm_num at h
    exact h
  have hK1 : convert (Arith.binary64 ns) (electricityAt (F64.fin 1) 1415963700) =
      F64.fin (1152921504606847 / 2 ^ 60) := by
    have hd := F64.div_finite (Arith.binary64 ns) (F64.fin 1) (F64.fin 1000) rfl rfl
      (by simp [F64.toRat])
    simp only [F64.toRat] at hd
    simp only [convert, convertWattHourToKilowattHour, electricityAt, if_true, hc1000, hd]
    exact ofExact_b64_val ns _ _ _ hk1 (by norm_num) (by rw [abs_of_pos (by norm_num)]; norm_num)
  have hK2 : convert (Arith.binary64 ns) (electricityAt (F64.fin 1001) 1415964600) =
      F64.fin (2254051613498933 / 2 ^ 51) := by
    have hd := F64.div_finite (Arith.binary64 ns) (F64.fin 1001) (F64.fin 1000) rfl rfl
      (by simp [F64.toRat])
    simp only [F64.toRat] at hd
    simp only [convert, convertWattHourToKilowattHour, electricityAt, if_true, hc1000, hd]
    exact ofExact_b64_val ns _ _ _ hk2 (by norm_num) (by rw [abs_of_pos (by norm_num)]; norm_num)
  have hU : F64.sub (Arith.binary64 ns)
      (convert (Arith.binary64 ns) (electricityAt (F64.fin 1001) 1415964600))
      (convert (Arith.binary64 ns) (electricityAt (F64.fin 1) 1415963700)) =
      F64.fin (9007199254740991 / 2 ^ 53) := by
    rw [hK1, hK2, F64.sub_finite (Arith.binary64 ns) (F64.fin (2254051613498933 / 2 ^ 51))
      (F64.fin (1152921504606847 / 2 ^ 60)) rfl rfl]
    simp only [F64.toRat]
    exact ofExact_b64_val ns _ _ _ hu (by norm_num) (by rw [abs_of_pos (by norm_num)]; norm_num)
  have hP : getPricePerHour (Arith.binary64 ns) (electricityAt (F64.fin 1) 1415963700) =
      F64.fin (3602879701896397 / 2 ^ 54) := by
    have hq : EnergyPrice.getPricePerHour
        (electricityAt (F64.fin 1) 1415963700).toExact = 20 / 100 :=
      getPricePerHour_weekday _ rfl (by decide) (by decide)
    rw [getPricePerHourF_eq, hq]
    unfold F64.const
    exact ofExact_b64_val ns _ _ _ hp (by norm_num) (by rw [abs_of_pos (by norm_num)]; norm_num)
  have hguard : ¬ ((F64.fin (9007199254740991 / 2 ^ 53)).Signbit = true ∨
      F64.lt (F64.fin 100) (F64.fin (9007199254740991 / 2 ^ 53)) = true) := by
    simp only [F64.Signbit, F64.lt, F64.toRat, decide_eq_true_eq, not_or, not_lt]
    constructor <;> norm_num
  refine ⟨?_, hp⟩
  rw [calculateTotalPrices_two, hU, hP, hc100, if_neg hguard,
    F64.mul_finite (Arith.binary64 ns) (F64.fin (9007199254740991 / 2 ^ 53))
      (F64.fin (3602879701896397 / 2 ^ 54)) rfl rfl]
  simp only [F64.toRat]
  rw [ofExact_b64_val ns _ _ _ hc (by norm_num) (by rw [abs_of_pos (by norm_num)]; norm_num),
    F64.add_finite (Arith.binary64 ns) (F64.fin 0) (F64.fin (7205759403792793 / 2 ^ 55)) rfl rfl]
  simp only [F64.toRat]
  rw [ofExact_b64_val ns _ _ _ ht (by norm_num) (by rw [abs_of_pos (by norm_num)]; norm_num)]

/-- C6 at the rows `1,1,1,1415963700` and `1,1,1001,1415964600` (Friday
2014-11-14, 11:15 and 11:30 UTC) in binary64: the raw total is
`0.19999999999999998`, not the float64 nearest `0.20`, and the rounded output
is the single entry of meter 1 with the float64 nearest `0.20`. -/
theorem end_to_end_scenario_witness :
    (4 ≤ rowC1.length ∧ 4 ≤ rowC2.length) ∧
    (rowMeter utcRuntime rowC1 = 1 ∧ rowMeter utcRuntime rowC2 = 1) ∧
    ((rowReading utcRuntime rowC1).energyType = ELECTRICITY_TYPE ∧
      (rowReading utcRuntime rowC2).energyType = ELECTRICITY_TYPE) ∧
    ((rowReading utcRuntime rowC1).usage = F64.fin 1 ∧
      (rowReading utcRuntime rowC2).usage = F64.fin 1001) ∧
    (roundBinary64 1 = 1 ∧ roundBinary64 1001 = 1001) ∧
    ((rowReading utcRuntime rowC1).createdAt.Weekday = Friday ∧
      (rowReading utcRuntime rowC1).createdAt.Hour = 11) ∧
    calculateTotalPrices (Arith.binary64 true)
        [(1, [rowReading utcRuntime rowC1, rowReading utcRuntime rowC2])] [(1, F64.fin 0)] =
      [(1, F64.fin (7205759403792793 / 2 ^ 55))] ∧
    (7205759403792793 / 2 ^ 55 : ℚ) ≠ roundBinary64 (20 / 100) ∧
    ∃ R T, organizeInputData utcRuntime [headerRow, rowC1, rowC2] = some (R, T) ∧
      roundedTotals (Arith.binary64 true) (calculateTotalPrices (Arith.binary64 true) R T) =
        [(1, F64.fin (roundBinary64 (20 / 100)))] :=
  have hu1 : (rowReading utcRuntime rowC1).usage = F64.fin 1 := by decide
  have hu2 : (rowReading utcRuntime rowC2).usage = F64.fin 1001 := by decide
  have hone : roundBinary64 1 = 1 := by
    have h := roundBinary64_dyadic 1 0 (by decide) (by norm_num)
    simpa using h
  have hthou : roundBinary64 1001 = 1001 := by
    have h := roundBinary64_dyadic 1001 0 (by decide) (by norm_num)
    simpa using h
  ⟨⟨by decide, by decide⟩, ⟨by decide, by decide⟩, ⟨by decide, by decide⟩, ⟨hu1, hu2⟩,
    ⟨hone, hthou⟩, ⟨by decide, by decide⟩,
    by rw [rowC_readings.1, rowC_readings.2]; exact (calculateTotalPrices_rowC true).1,
    by rw [(calculateTotalPrices_rowC true).2]; norm_num,
    end_to_end_scenario true utcRuntime headerRow rowC1 rowC2 1 (by decide) (by decide)
      (by decide) (by decide) (by decide) (by decide)
      (by rw [hu1]; rfl) (by rw [hu2]; rfl)
      (by rw [hu1]; exact hone) (by rw [hu2]; exact hthou)
      (by rw [hu1, hu2]; norm_num [F64.toRat])
      (by decide) (by decide)⟩

end IEEE

/-! ## Rounding to binary64: order and idempotence -/

namespace IEEE

end IEEE

/-! ## Operations of binary64 on totals -/

namespace IEEE

namespace F64

end F64

namespace F64

theorem isNaN_of_le (x y : F64) (h : le x y = true) : y.isNaN = false := by
  cases x <;> cases y <;> simp_all [le, isNaN]

theorem same_symm (x y : F64) (h : same x y = true) : same y x = true := by
  simp only [same, Bool.or_eq_true, decide_eq_true_eq, Bool.and_eq_true] at h ⊢
  rcases h with h | h
  · exact Or.inl h.symm
  · exact Or.inr ⟨h.2, h.1⟩

theorem isBinary64_of_isZero (x : F64) (h : x.isZero = true) : x.isBinary64 = true := by
  cases x with
  | nan s => rfl
  | inf s => rfl
  | negZero => rfl
  | fin q =>
    have hq : q = 0 := by simpa [isZero] using h
    rw [hq]
    simp [isBinary64, roundBinary64]

theorem isBinary64_of_same (x y : F64) (h : same x y = true) (hy : y.isBinary64 = true) :
    x.isBinary64 = true := by
  simp only [same, Bool.or_eq_true, decide_eq_true_eq, Bool.and_eq_true] at h
  rcases h with h | h
  · rw [h]; exact hy
  · exact isBinary64_of_isZero x h.1

end F64

namespace F64

end F64

end IEEE

/-! ## The cost accumulator in binary64 -/

namespace IEEE

end IEEE

/-! ## Sum, monotonicity and bound without a NaN delta (C1, C7, C18) -/

namespace IEEE

end IEEE

end EnergyPrice
